import Mathlib

/-!
Imladris: cache/index layer and sheet query layer.

A shallow embedding of `src/imladris_service.js` and
`src/sheets_database_service.js`.

Modelling conventions.

* A sheet cell is `Option String` (`none` is JavaScript `null`); a row is a
  list of cells and the fetched data a list of rows.
* `idToIndex` and `tagToIndexList` are plain objects (`{}`) used as
  dictionaries.  Their own properties are a map `String → Option α`.  The
  members they inherit matter in two places, and both are modelled: the call
  `o.hasOwnProperty(k)` looks the method up on the object first, so it raises
  a `TypeError` once a key `hasOwnProperty` has been assigned; and the key
  `__proto__` is the accessor of `Object.prototype`, so assigning to it never
  creates an own property (a number is ignored, an array becomes the new
  prototype of the object).
* `String.prototype.toLowerCase` depends on the case tables of the runtime,
  which are not part of the repository: it is a parameter `toLowerCase` of
  every operation that calls it.  `toLowerCaseAscii` is its restriction to
  ASCII strings and is used to evaluate the operations on ASCII inputs.
* The asynchronous remote call is modelled by handing the response of the
  sheet API (`FetchResponse`) to the operation; every operation returns the
  state reached once all its callbacks have run (or the state in which an
  exception left them), together with a record of the effects.
* Timestamps and remote row numbers are integers.
-/

namespace Imladris

/-! ## Data model -/

/-- One sheet cell: a string, or `none` for JavaScript `null`. -/
abbrev Cell := Option String

/-- One fetched row: its cells, possibly fewer than the schema has columns. -/
abbrev Row := List Cell

/-- An exception raised by the JavaScript runtime: reading an unbound
identifier, or calling or reading a property of a value that has none. -/
inductive JsError where
  | referenceError : String → JsError
  | typeError : String → JsError
  deriving DecidableEq

/-- The own properties of a JavaScript object used as a string-keyed
dictionary. -/
abbrev JsObj (α : Type) := String → Option α

/-- The empty object literal. -/
def JsObj.empty {α : Type} : JsObj α := fun _ => none

/-- Own-property test of a dictionary object, as `Object.prototype.hasOwnProperty`
computes it. -/
def JsObj.hasOwnProperty {α : Type} (o : JsObj α) (k : String) : Bool := (o k).isSome

/-- Creation or update of an own property. -/
def JsObj.set {α : Type} (o : JsObj α) (k : String) (v : α) : JsObj α :=
  fun k' => if k' = k then some v else o k'

/-- The call `o.hasOwnProperty(k)` on a plain object.  The method is looked up
on the object itself before its prototype: once an own property named
`hasOwnProperty` exists (its value is a number or an array here), the call
raises `TypeError: o.hasOwnProperty is not a function`. -/
def JsObj.callHasOwnProperty {α : Type} (o : JsObj α) (k : String) : Except JsError Bool :=
  if o.hasOwnProperty "hasOwnProperty" then
    .error (.typeError "hasOwnProperty is not a function")
  else .ok (o.hasOwnProperty k)

/-- The assignment `o[k] = v` of a number on a plain object.  The key
`__proto__` reaches the setter of `Object.prototype`, which ignores a value
that is not an object; every other key becomes an own property. -/
def JsObj.assignNumber (o : JsObj Nat) (k : String) (v : Nat) : JsObj Nat :=
  if k = "__proto__" then o else o.set k v

/-- The object `tagToIndexList`: its own properties, and the array that an
assignment to `__proto__` has installed as its prototype (`none` while the
prototype is still `Object.prototype`). -/
structure TagIndex where
  own : JsObj (List Nat)
  proto : Option (List Nat)

/-- The empty object literal, with prototype `Object.prototype`. -/
def TagIndex.empty : TagIndex := { own := JsObj.empty, proto := none }

/-- The call `tagToIndexList.hasOwnProperty(k)`: an own property named
`hasOwnProperty` shadows the method; an array installed as prototype has no
such property, so the method of `Object.prototype` is still found. -/
def TagIndex.callHasOwnProperty (o : TagIndex) (k : String) : Except JsError Bool :=
  o.own.callHasOwnProperty k

/-- The assignment `tagToIndexList[k] = v` of an array: for the key
`__proto__` the setter of `Object.prototype` makes the array the new
prototype; every other key becomes an own property. -/
def TagIndex.assignArray (o : TagIndex) (k : String) (v : List Nat) : TagIndex :=
  if k = "__proto__" then { o with proto := some v }
  else { o with own := o.own.set k v }

/-- The array read by `tagToIndexList[k]`: for the key `__proto__` the getter
gives the prototype, for every other key the own property (`none` when what
is read is not an array). -/
def TagIndex.get (o : TagIndex) (k : String) : Option (List Nat) :=
  if k = "__proto__" then o.proto else o.own k

/-- The response of the sheet API to a `values.get` request. -/
inductive FetchResponse where
  | err : String → FetchResponse
  | values : List Row → FetchResponse

/-- The record pushed to `cachedData` for one row. -/
structure Item where
  id : String
  link : Option String
  type : Option String
  name : Option String
  tags : Option (List String)
  description : Option String
  deriving DecidableEq

/-! ## Constants of `imladris_service.js` -/

def ALLOWED_TYPES : List String := ["link", "image"]
def COLUMNS : List String := ["Id", "Link", "Type", "Name", "Tags", "Description"]
def ID_INDEX : Nat := COLUMNS.indexOf "Id"
def LINK_INDEX : Nat := COLUMNS.indexOf "Link"
def TYPE_INDEX : Nat := COLUMNS.indexOf "Type"
def NAME_INDEX : Nat := COLUMNS.indexOf "Name"
def TAGS_INDEX : Nat := COLUMNS.indexOf "Tags"
def DESCRIPTION_INDEX : Nat := COLUMNS.indexOf "Description"
def CACHE_EXPIRY_TIME : Int := 30 * 1000
def DEFAULT_STARTING_ROW : Int := 2

/-! ## Row codec -/

/-- Source `getColumnEntry(data, row, column)`. -/
def getColumnEntry (data : List Row) (row column : Nat) : Option String :=
  if data.length > row then
    let rowArr := data.getD row []
    if rowArr.length > column then
      let cell := rowArr.getD column none
      match cell with
      | some s => if s.length > 0 then some s else none
      | none => none
    else none
  else none

def getId (data : List Row) (index : Nat) : Option String :=
  getColumnEntry data index ID_INDEX

def getLink (data : List Row) (index : Nat) : Option String :=
  getColumnEntry data index LINK_INDEX

def getName (data : List Row) (index : Nat) : Option String :=
  getColumnEntry data index NAME_INDEX

/-- The restriction of `String.prototype.toLowerCase` to ASCII strings: the
letters `A`-`Z` become `a`-`z` and every other ASCII character is kept. -/
def toLowerCaseAscii (s : String) : String := String.mk (s.data.map Char.toLower)

/-- Splitting a character list on a separator character; the accumulator
holds the current piece.  The result always has at least one piece. -/
def splitChars (sep : Char) : List Char → List Char → List String
  | [], cur => [String.mk cur]
  | c :: cs, cur =>
    if c = sep then String.mk cur :: splitChars sep cs []
    else splitChars sep cs (cur ++ [c])

/-- Model of `str.split(",")`. -/
def splitComma (s : String) : List String := splitChars ',' s.data []

/-- Source `getTags(data, index)`; `toLowerCase` is the method of the
runtime. -/
def getTags (toLowerCase : String → String) (data : List Row) (index : Nat) :
    Option (List String) :=
  match getColumnEntry data index TAGS_INDEX with
  | some str => some (splitComma (toLowerCase str))
  | none => none

def getDescription (data : List Row) (index : Nat) : Option String :=
  getColumnEntry data index DESCRIPTION_INDEX

def getType (data : List Row) (index : Nat) : Option String :=
  getColumnEntry data index TYPE_INDEX

/-! ## Service state and index build -/

/-- The mutable fields of an `ImladrisService` instance. -/
structure ImladrisService where
  cachedData : Option (List Item)
  idToIndex : Option (JsObj Nat)
  tagToIndexList : Option TagIndex
  lastIndexTimestamp : Int

/-- The state set up by the constructor. -/
def ImladrisService.new : ImladrisService :=
  { cachedData := none, idToIndex := none, tagToIndexList := none,
    lastIndexTimestamp := -999 }

/-- The variables updated by the loop of `reindexDatabase`, and the exception
that has ended the loop, if any. -/
structure IndexState where
  cachedData : List Item
  idToIndex : JsObj Nat
  tagToIndexList : TagIndex
  index : Nat
  raised : Option JsError

/-- The state before the first iteration. -/
def IndexState.init : IndexState :=
  { cachedData := [], idToIndex := JsObj.empty, tagToIndexList := TagIndex.empty, index := 0,
    raised := none }

/-- The inner loop `for (let tag of tags)` of `reindexDatabase`; the result is
the object as the loop leaves it and the exception that ended it, if any.
The statement `tagToIndexList[tag].push(index)` reads the array under the key
and extends it in place. -/
def pushTags (index : Nat) : List String → TagIndex → TagIndex × Option JsError
  | [], o => (o, none)
  | tag :: rest, o =>
    match o.callHasOwnProperty tag with
    | .error e => (o, some e)
    | .ok has =>
      let o1 := if !has then o.assignArray tag [] else o
      match o1.get tag with
      | none => (o1, some (.typeError "push of undefined"))
      | some list => pushTags index rest (o1.assignArray tag (list ++ [index]))

/-- One iteration of the loop of `reindexDatabase`, for row number `i`.  The
item is pushed first; the call `idToIndex.hasOwnProperty(id)` only decides
about a warning, but it can raise; then the id is assigned and the tags are
listed; `++index` is the last statement. -/
def reindexStep (toLowerCase : String → String) (data : List Row) (st : IndexState)
    (i : Nat) : IndexState :=
  match st.raised with
  | some _ => st
  | none =>
    match getId data i with
    | none => st
    | some id =>
      let link := getLink data i
      let type := getType data i
      let name := getName data i
      let tags := getTags toLowerCase data i
      let description := getDescription data i
      let cachedData := st.cachedData ++ [{ id, link, type, name, tags, description }]
      match st.idToIndex.callHasOwnProperty id with
      | .error e => { st with cachedData := cachedData, raised := some e }
      | .ok _ =>
        let idToIndex := st.idToIndex.assignNumber id st.index
        match tags with
        | none =>
          { cachedData, idToIndex, tagToIndexList := st.tagToIndexList,
            index := st.index + 1, raised := none }
        | some ts =>
          match pushTags st.index ts st.tagToIndexList with
          | (tagToIndexList, some e) =>
            { cachedData, idToIndex, tagToIndexList, index := st.index, raised := some e }
          | (tagToIndexList, none) =>
            { cachedData, idToIndex, tagToIndexList, index := st.index + 1, raised := none }

/-- The loop `for (let i = 0; i < data.length; ++i)` of `reindexDatabase`. -/
def reindexLoop (toLowerCase : String → String) (data : List Row) : IndexState :=
  (List.range data.length).foldl (reindexStep toLowerCase data) IndexState.init

/-- The effects and final state of one `reindexDatabase(callback)` call: the
fields of the service, the number of callback invocations, and the exception
that left the response handler, if any. -/
structure ReindexResult where
  self : ImladrisService
  callbackCalls : Nat
  raised : Option JsError

/-- Source `reindexDatabase(callback)`: on a failed fetch nothing happens; on a
successful one the three index fields are replaced by fresh objects and
filled by the loop, and the callback runs when the loop has not raised. -/
def reindexDatabase (toLowerCase : String → String) (self : ImladrisService)
    (hasCallback : Bool) (response : FetchResponse) : ReindexResult :=
  match response with
  | .err _ => { self := self, callbackCalls := 0, raised := none }
  | .values data =>
    let st := reindexLoop toLowerCase data
    { self := { self with cachedData := some st.cachedData,
                          idToIndex := some st.idToIndex,
                          tagToIndexList := some st.tagToIndexList },
      callbackCalls := if st.raised.isNone && hasCallback then 1 else 0,
      raised := st.raised }

/-! ## Cache controller -/

/-- The effects and final state of one `refreshDatabase(forceUpdate, callback)`
call: the value returned synchronously, whether `reindexDatabase` was called,
whether the callback was invoked synchronously (the last statements of the
function), how often it was invoked from the rebuild, and the exception that
left the rebuild, if any. -/
structure RefreshResult where
  self : ImladrisService
  returned : Bool
  rebuildStarted : Bool
  immediateCallback : Bool
  rebuildCallbacks : Nat
  rebuildRaised : Option JsError

/-- Source `refreshDatabase(forceUpdate, callback)`; `currentTime` is the value
of `Date.now()` and `response` the answer of the sheet API to the fetch that
a rebuild issues. -/
def refreshDatabase (toLowerCase : String → String) (self : ImladrisService)
    (forceUpdate : Bool) (currentTime : Int) (response : FetchResponse) : RefreshResult :=
  if forceUpdate
      || self.cachedData.isNone
      || decide (currentTime > self.lastIndexTimestamp + CACHE_EXPIRY_TIME) then
    let r := reindexDatabase toLowerCase self true response
    { self := { r.self with lastIndexTimestamp := currentTime },
      returned := false, rebuildStarted := true, immediateCallback := false,
      rebuildCallbacks := r.callbackCalls, rebuildRaised := r.raised }
  else
    { self := self, returned := true, rebuildStarted := false, immediateCallback := true,
      rebuildCallbacks := 0, rebuildRaised := none }

/-! ## Point lookup -/

/-- Source `getCachedItemById(id)`.  The result is the returned item or
`none` for `null`; the call `idToIndex.hasOwnProperty(id)` raises on a null
`idToIndex` and on an object that has an own property `hasOwnProperty`. -/
def getCachedItemById (self : ImladrisService) (id : String) : Except JsError (Option Item) :=
  match self.cachedData with
  | none => .ok none
  | some cachedData =>
    match self.idToIndex with
    | none => .error (.typeError "idToIndex is null")
    | some idToIndex =>
      match idToIndex.callHasOwnProperty id with
      | .error e => .error e
      | .ok false => .ok none
      | .ok true =>
        match idToIndex id with
        | none => .ok none
        | some index =>
          if index < 0 || index ≥ cachedData.length then .ok none
          else .ok (cachedData.get? index)

/-! ## Sheet adapter: `getMatchingRows` -/

/-- The fields of a `SheetsDatabaseService` instance that the queries read. -/
structure SheetsDatabaseService where
  columns : List String
  startingRow : Int

/-- The adapter that the `ImladrisService` constructor creates. -/
def databaseService : SheetsDatabaseService :=
  { columns := COLUMNS, startingRow := DEFAULT_STARTING_ROW }

/-- The variables of the scan loop of `getMatchingRows`, and the callback
invocations made from inside the loop. -/
structure MatchState where
  rowIndex : Int
  matchingIndices : List Int
  matchingRows : List Row
  calls : List (List Int × List Row)

/-- The loop `for (let row of response.data.values)` of `getMatchingRows`;
in `firstOnly` mode the first match invokes the callback and leaves the loop. -/
def scanRows (columnIndex : Nat) (filter : Cell → Bool) (firstOnly : Bool) :
    List Row → MatchState → MatchState
  | [], st => st
  | row :: rest, st =>
    let rowIndex := st.rowIndex + 1
    if columnIndex ≥ row.length then
      scanRows columnIndex filter firstOnly rest { st with rowIndex := rowIndex }
    else
      let columnValue := row.getD columnIndex none
      if filter columnValue then
        if firstOnly then
          { st with rowIndex := rowIndex, calls := st.calls ++ [([rowIndex], [row])] }
        else
          scanRows columnIndex filter firstOnly rest
            { st with rowIndex := rowIndex,
                      matchingIndices := st.matchingIndices ++ [rowIndex],
                      matchingRows := st.matchingRows ++ [row] }
      else
        scanRows columnIndex filter firstOnly rest { st with rowIndex := rowIndex }

/-- The effects of one `getMatchingRows` call: whether the sheet was
requested, and the argument pairs of the callback invocations, in order. -/
structure MatchResult where
  fetchIssued : Bool
  calls : List (List Int × List Row)

/-- Source `getMatchingRows(columnName, filter, callback, firstOnly)`. -/
def getMatchingRows (self : SheetsDatabaseService) (columnName : String)
    (filter : Cell → Bool) (firstOnly : Bool) (response : FetchResponse) : MatchResult :=
  if !self.columns.contains columnName then
    { fetchIssued := false, calls := [] }
  else
    let columnIndex := self.columns.indexOf columnName
    match response with
    | .err _ => { fetchIssued := true, calls := [] }
    | .values values =>
      let st := scanRows columnIndex filter firstOnly values
        { rowIndex := self.startingRow - 1, matchingIndices := [], matchingRows := [],
          calls := [] }
      if !firstOnly then
        { fetchIssued := true, calls := st.calls ++ [(st.matchingIndices, st.matchingRows)] }
      else
        { fetchIssued := true, calls := st.calls }

/-! ## Query engine -/

/-- Source `filterItems(key, filter, callback, firstOnly)`: the caller's
callback receives exactly the argument pairs of `getMatchingRows`. -/
def filterItems (key : String) (filter : Cell → Bool) (firstOnly : Bool)
    (response : FetchResponse) : List (List Int × List Row) :=
  (getMatchingRows databaseService key filter firstOnly response).calls

/-- The effects of running a callback of `deleteItems`: the position lists
handed to `deleteRows` and the number of invocations of the caller's
callback. -/
structure DeleteEffects where
  deleteRowsCalls : List (List Int)
  callbackCalls : Nat
  deriving DecidableEq

/-- The identifiers bound in the body of the arrow function that
`deleteItems` passes to `getMatchingRows`: its parameters, the parameters of
the enclosing method, the bindings of the enclosing closure and module, and
the globals the module uses. -/
def deleteItemsScope : List String :=
  ["rowIndices", "rowValues", "key", "filter", "callback", "firstOnly", "this",
   "ALLOWED_TYPES", "COLUMNS", "ID_INDEX", "LINK_INDEX", "TYPE_INDEX", "NAME_INDEX",
   "TAGS_INDEX", "DESCRIPTION_INDEX", "CACHE_EXPIRY_TIME", "DEFAULT_STARTING_ROW",
   "CONFIG_PATH", "getColumnEntry", "getEntryObj", "getId", "getLink", "getName",
   "getTags", "getDescription", "getType", "ImladrisService", "ImgurImageService",
   "SheetsDatabaseService", "uuidv4", "fileURLToPath", "fs", "nullableAtIndex",
   "setAtIndex", "console", "JSON", "Date", "process"]

/-- Reading an identifier: a name that is not bound raises a `ReferenceError`. -/
def readIdentifier (scope : List String) (name : String) : Except JsError Unit :=
  if scope.contains name then .ok () else .error (.referenceError name)

/-- The arrow function that `deleteItems` passes to `getMatchingRows`:
`(rowIndices, rowValues) => { callback(result); }`.  The argument `result` is
evaluated first, then the caller's callback is entered; `deleteRows` is not
mentioned in the body. -/
def deleteItemsCallback (_rowIndices : List Int) (_rowValues : List Row)
    (eff : DeleteEffects) : Except JsError DeleteEffects :=
  match readIdentifier deleteItemsScope "result" with
  | .error e => .error e
  | .ok _ => .ok { eff with callbackCalls := eff.callbackCalls + 1 }

/-- Running the callback invocations of `getMatchingRows` in order; an
exception ends the run. -/
def runDeleteCalls : List (List Int × List Row) → DeleteEffects → Except JsError DeleteEffects
  | [], eff => .ok eff
  | (rowIndices, rowValues) :: rest, eff =>
    match deleteItemsCallback rowIndices rowValues eff with
    | .error e => .error e
    | .ok eff1 => runDeleteCalls rest eff1

/-- Source `deleteItems(key, filter, callback, firstOnly)`. -/
def deleteItems (key : String) (filter : Cell → Bool) (firstOnly : Bool)
    (response : FetchResponse) : Except JsError DeleteEffects :=
  runDeleteCalls (getMatchingRows databaseService key filter firstOnly response).calls
    { deleteRowsCalls := [], callbackCalls := 0 }

/-! ## Sheet adapter: column names, `addEntry`, `updateRows`, `deleteRows` -/

def NUM_LETTERS : Nat := 26
def CHAR_A : Nat := 65
def STARTING_COLUMN : String := "A"

/-- The `while (columnNumber > 0)` loop of `getExcelColumnName`, on a positive
integer column number and the name built so far. -/
def getExcelColumnNameLoop (columnNumber : Nat) (columnName : String) : String :=
  if columnNumber > 0 then
    let modulo := (columnNumber - 1) % NUM_LETTERS
    getExcelColumnNameLoop ((columnNumber - modulo) / NUM_LETTERS)
      (String.singleton (Char.ofNat (modulo + CHAR_A)) ++ columnName)
  else columnName
termination_by columnNumber
decreasing_by
  simp only [NUM_LETTERS]
  omega

/-- Source `getExcelColumnName(columnNumber)`. -/
def getExcelColumnName (columnNumber : Int) : Option String :=
  if columnNumber ≤ 0 then none
  else some (getExcelColumnNameLoop columnNumber.toNat "")

/-- Conversion of an integer to a string, as done by `+` with a string operand
and by the default comparison of `Array.prototype.sort`: its decimal numeral. -/
def numberToString (n : Int) : String := toString n

/-- The field `dataRange` set by the constructor of `SheetsDatabaseService`:
`STARTING_COLUMN + startingRow + ":" + getExcelColumnName(columns.length)`. -/
def dataRange (self : SheetsDatabaseService) : String :=
  STARTING_COLUMN ++ numberToString self.startingRow ++ ":"
    ++ (getExcelColumnName self.columns.length).getD "null"

/-- Model of `Array.prototype.join(sep)` on an array of strings. -/
def join (sep : String) : List String → String
  | [] => ""
  | [a] => a
  | a :: b :: rest => a ++ sep ++ join sep (b :: rest)

/-- Source `addEntry(rowArr)`: the rows handed to the append request of the
sheet API (none when the row is wider than the schema). -/
def addEntry (self : SheetsDatabaseService) (rowArr : Row) : List Row :=
  if rowArr.length > self.columns.length then []
  else [rowArr]

/-- One element of the `data` list of a `values.batchUpdate` request. -/
structure RangeUpdate where
  range : String
  values : List Row
  deriving DecidableEq

/-- The body of the loop `for (let i = 0; i < rowIndices.length; ++i)` of
`updateRows`: the update pushed for index `i`, or `none` when the row is
skipped because of its width. -/
def updateRowsStep (self : SheetsDatabaseService) (lastColumn : Option String)
    (rowIndices : List Int) (rowValues : List Row) (i : Nat) : Option RangeUpdate :=
  let rowIndex := rowIndices.getD i 0
  let rowValue := rowValues.getD i []
  if rowValue.length ≠ self.columns.length then none
  else
    some { range := STARTING_COLUMN ++ numberToString rowIndex ++ ":"
                      ++ lastColumn.getD "null" ++ numberToString rowIndex,
           values := [rowValue] }

/-- Source `updateRows(rowIndices, rowValues)`: the `data` lists of the
`values.batchUpdate` requests issued (none when the lengths differ, one
otherwise). -/
def updateRows (self : SheetsDatabaseService) (rowIndices : List Int)
    (rowValues : List Row) : List (List RangeUpdate) :=
  if rowIndices.length ≠ rowValues.length then []
  else
    let lastColumn := getExcelColumnName self.columns.length
    [(List.range rowIndices.length).filterMap
      (updateRowsStep self lastColumn rowIndices rowValues)]

/-- The comparison `x < y` of two strings by code units, for the strings that
`numberToString` produces. -/
def stringLt : List Char → List Char → Bool
  | [], [] => false
  | [], _ :: _ => true
  | _ :: _, [] => false
  | a :: as, b :: bs =>
    if a.toNat < b.toNat then true
    else if b.toNat < a.toNat then false
    else stringLt as bs

/-- The order used by `Array.prototype.sort()` without a comparison function:
both elements are converted to strings, and `a` stays before `b` unless the
string of `b` is smaller than the string of `a`. -/
def defaultSortLe (a b : Int) : Bool :=
  !stringLt (numberToString b).data (numberToString a).data

/-- Model of `rowIndices.sort()` (a stable sort under the default order). -/
def defaultSort (rowIndices : List Int) : List Int :=
  rowIndices.insertionSort (fun a b => defaultSortLe a b = true)

/-- One `deleteDimension` request: rows `startIndex` (inclusive) to `endIndex`
(exclusive), zero-based. -/
structure DeleteDimension where
  startIndex : Int
  endIndex : Int
  deriving DecidableEq

/-- Source `deleteRows(rowIndices)`: the request lists of the `batchUpdate`
calls issued (none for an empty position list, one otherwise). -/
def deleteRows (rowIndices : List Int) : List (List DeleteDimension) :=
  if rowIndices.length ≤ 0 then []
  else
    let rowIndices := (defaultSort rowIndices).reverse
    [rowIndices.map (fun rowIndex => { startIndex := rowIndex - 1, endIndex := rowIndex })]

/-! ## `addItem` and `updateItems` -/

/-- The effects of one `addItem` call: the lines logged and the rows handed
to the append request of the sheet API. -/
structure AddItemResult where
  logged : List String
  appended : List Row
  deriving DecidableEq

/-- Source `addItem(link, type, name, tags, description)`; `id` is the value
returned by `uuidv4()` and `toLowerCase` the method of the runtime. -/
def addItem (toLowerCase : String → String) (id : String) (link : Cell)
    (type : Option String) (name : Cell) (tags : Option (List String))
    (description : Cell) : AddItemResult :=
  match type with
  | none => { logged := ["Error: Type cannot be null"], appended := [] }
  | some type =>
    let type := toLowerCase type
    let logged :=
      if !ALLOWED_TYPES.contains type then ["Error: Unsupported type \"" ++ type ++ "\""]
      else []
    let name :=
      match name with
      | some n => if n.length > 0 then some n else link
      | none => link
    let tagStr :=
      match tags with
      | some ts => some (join "," ts)
      | none => none
    { logged := logged,
      appended := addEntry databaseService [some id, link, some type, name, tagStr, description] }

/-- Source `updateItems(key, filter, mutator, firstOnly)`: the `data` lists of
the `values.batchUpdate` requests issued. -/
def updateItems (key : String) (filter : Cell → Bool) (mutator : Row → Row)
    (firstOnly : Bool) (response : FetchResponse) : List (List RangeUpdate) :=
  ((getMatchingRows databaseService key filter firstOnly response).calls.map
    (fun call => updateRows databaseService call.1 (call.2.map mutator))).flatten

/-! ## Definitions used to state the properties -/

/-- The item that the loop body of `reindexDatabase` builds from a single row
(the row taken as a one-row data set), or `none` when the row is skipped. -/
def decodeRow (toLowerCase : String → String) (row : Row) : Option Item :=
  match getId [row] 0 with
  | none => none
  | some id =>
    some { id := id, link := getLink [row] 0, type := getType [row] 0,
           name := getName [row] 0, tags := getTags toLowerCase [row] 0,
           description := getDescription [row] 0 }

/-- The text of the cell at a zero-based column of a row: `none` when the row
has no such cell or the cell is null or of zero length. -/
def cellText (row : Row) (column : Nat) : Option String :=
  match row[column]? with
  | some (some s) => if s = "" then none else some s
  | _ => none

/-- The item that the schema `[Id, Link, Type, Name, Tags, Description]`
assigns to a row: the id is the text of cell 0 (no item without it), link,
type, name and description are the texts of cells 1, 2, 3 and 5, and the tags
are the pieces of the lowercased text of cell 4 between commas. -/
def schemaItem (toLowerCase : String → String) (row : Row) : Option Item :=
  match cellText row 0 with
  | none => none
  | some id =>
    some { id := id, link := cellText row 1, type := cellText row 2,
           name := cellText row 3,
           tags := (cellText row 4).map (fun s => splitComma (toLowerCase s)),
           description := cellText row 5 }

/-- A row whose Id cell (the first cell) is present, not null and not of
zero length. -/
def hasNonEmptyId (row : Row) : Bool :=
  match row.head? with
  | some (some s) => s != ""
  | _ => false

/-- One loop iteration of `reindexDatabase` on the loop variables, in terms of
the item that is pushed. -/
def pushItem (st : IndexState) (it : Item) : IndexState :=
  match st.raised with
  | some _ => st
  | none =>
    let cachedData := st.cachedData ++ [it]
    match st.idToIndex.callHasOwnProperty it.id with
    | .error e => { st with cachedData := cachedData, raised := some e }
    | .ok _ =>
      let idToIndex := st.idToIndex.assignNumber it.id st.index
      match it.tags with
      | none =>
        { cachedData, idToIndex, tagToIndexList := st.tagToIndexList,
          index := st.index + 1, raised := none }
      | some ts =>
        match pushTags st.index ts st.tagToIndexList with
        | (tagToIndexList, some e) =>
          { cachedData, idToIndex, tagToIndexList, index := st.index, raised := some e }
        | (tagToIndexList, none) =>
          { cachedData, idToIndex, tagToIndexList, index := st.index + 1, raised := none }

/-- Two rows with the same id and different links. -/
def duplicateRows : List Row := [[some "X", some "a"], [some "X", some "b"]]

/-- Six rows in which the id `X` is at positions 2 and 5. -/
def rowsWithXAt2And5 : List Row :=
  [[some "A"], [some "B"], [some "X", some "first"], [some "C"], [some "D"],
   [some "X", some "second"]]

/-- A data set whose only row has a single cell, a non-empty Id. -/
def shortRowWithId : List Row := [[some "X"]]

/-- Three rows of six cells with an id each and an empty Tags cell, the first
id being `hasOwnProperty`. -/
def rowsAfterHasOwnProperty : List Row :=
  [[some "hasOwnProperty", some "l0", some "link", some "n0", some "", some "d0"],
   [some "B", some "l1", some "image", some "n1", some "", some "d1"],
   [some "C", some "l2", some "link", some "n2", some "", some "d2"]]

/-- Three rows: the id `X`, the id `hasOwnProperty`, and the id `X` again. -/
def duplicateAroundHasOwnProperty : List Row :=
  [[some "X"], [some "hasOwnProperty"], [some "X"]]

/-- Two full rows with one tag each, the first id being `hasOwnProperty`. -/
def taggedRowsAfterHasOwnProperty : List Row :=
  [[some "hasOwnProperty", some "l", some "link", some "n", some "t1"],
   [some "B", some "l", some "link", some "n", some "t2"]]

/-- Two full rows that both carry the tag `__proto__`. -/
def rowsTaggedProto : List Row :=
  [[some "A", some "l", some "link", some "n", some "__proto__"],
   [some "B", some "l", some "link", some "n", some "__proto__"]]

/-- A state that holds an (empty) snapshot built at time 0. -/
def snapshotBuiltAtZero : ImladrisService :=
  { cachedData := some [], idToIndex := some JsObj.empty,
    tagToIndexList := some TagIndex.empty, lastIndexTimestamp := 0 }

/-- The value of a list of letters read as a bijective base-26 numeral, most
significant letter first, with `A` = 1, ..., `Z` = 26. -/
def lettersValue (letters : List Char) : Nat :=
  letters.foldl (fun acc c => acc * 26 + (c.toNat - 64)) 0

/-- The value of a column name as a bijective base-26 numeral. -/
def columnValue (columnName : String) : Nat := lettersValue columnName.data

/-- The test that the scan loop of `getMatchingRows` applies to a row: the
row has a cell at the column and the predicate accepts that cell. -/
def rowMatches (columnIndex : Nat) (filter : Cell → Bool) (row : Row) : Bool :=
  decide (columnIndex < row.length) && filter (row.getD columnIndex none)

/-- The remote positions of the rows of `rows` that pass the test, when the
first row of `rows` has remote position `pos`. -/
def matchingPositions (columnIndex : Nat) (filter : Cell → Bool) : Int → List Row → List Int
  | _, [] => []
  | pos, row :: rest =>
    if rowMatches columnIndex filter row then
      pos :: matchingPositions columnIndex filter (pos + 1) rest
    else matchingPositions columnIndex filter (pos + 1) rest

/-! ## The index build as a fold over the decoded items -/

theorem getColumnEntry_single (data : List Row) (i c : Nat) (h : i < data.length) :
    getColumnEntry data i c = getColumnEntry [data.getD i []] 0 c := by
  simp [getColumnEntry, h]

theorem getColumnEntry_out_of_range (data : List Row) (i c : Nat) (h : data.length ≤ i) :
    getColumnEntry data i c = none := by
  simp [getColumnEntry, Nat.not_lt.mpr h]

theorem reindexStep_eq (toLowerCase : String → String) (data : List Row) (st : IndexState)
    (i : Nat) (h : i < data.length) :
    reindexStep toLowerCase data st i =
      match decodeRow toLowerCase (data.getD i []) with
      | none => st
      | some it => pushItem st it := by
  unfold reindexStep decodeRow getId getLink getType getName getTags getDescription
  simp only [getColumnEntry_single data i _ h]
  cases hr : st.raised with
  | some e =>
    cases getColumnEntry [data.getD i []] 0 ID_INDEX with
    | none => rfl
    | some id => simp [pushItem, hr]
  | none =>
    cases getColumnEntry [data.getD i []] 0 ID_INDEX with
    | none => rfl
    | some id => simp only [pushItem, hr]

theorem foldl_range_eq_foldl {σ : Type} (f : σ → Row → σ) (g : σ → Nat → σ) (l : List Row) :
    (∀ st i, i < l.length → g st i = f st (l.getD i [])) →
    ∀ init, (List.range l.length).foldl g init = l.foldl f init := by
  induction l using List.reverseRecOn with
  | nil => intro _ init; simp
  | append_singleton l a ih =>
    intro h init
    have h1 : ∀ st i, i < l.length → g st i = f st (l.getD i []) := by
      intro st i hi
      have := h st i (by simp; omega)
      rw [this]
      simp [List.getD_eq_getElem?_getD, List.getElem?_append_left hi]
    have h2 : g (List.foldl f init l) l.length = f (List.foldl f init l) a := by
      have := h (List.foldl f init l) l.length (by simp)
      rw [this]
      simp [List.getD_eq_getElem?_getD]
    simp [List.range_succ, List.foldl_append, ih h1 init, h2]

theorem foldl_decode_eq (toLowerCase : String → String) (rows : List Row)
    (init : IndexState) :
    rows.foldl (fun st row => match decodeRow toLowerCase row with
                              | none => st
                              | some it => pushItem st it) init
      = (rows.filterMap (decodeRow toLowerCase)).foldl pushItem init := by
  induction rows generalizing init with
  | nil => rfl
  | cons row rest ih =>
    simp only [List.foldl_cons, List.filterMap_cons]
    cases h : decodeRow toLowerCase row with
    | none => simpa using ih init
    | some it => simpa using ih (pushItem init it)

theorem reindexLoop_eq (toLowerCase : String → String) (rows : List Row) :
    reindexLoop toLowerCase rows
      = (rows.filterMap (decodeRow toLowerCase)).foldl pushItem IndexState.init := by
  unfold reindexLoop
  rw [← foldl_decode_eq]
  exact foldl_range_eq_foldl _ (reindexStep toLowerCase rows) rows
    (fun st i hi => reindexStep_eq toLowerCase rows st i hi) IndexState.init

theorem foldl_pushItem_snoc (l : List Item) (a : Item) (init : IndexState) :
    (l ++ [a]).foldl pushItem init = pushItem (l.foldl pushItem init) a := by
  simp [List.foldl_append]

/-! ## One iteration, case by case -/

/-- The three ways in which one iteration can end: the loop had been left
before; the call `idToIndex.hasOwnProperty(id)` raises after the item has been
pushed; or the id is assigned and the tag loop runs (and may raise). -/
theorem pushItem_cases (st : IndexState) (a : Item) :
    (st.raised ≠ none ∧ pushItem st a = st)
      ∨ (st.raised = none ∧ st.idToIndex.hasOwnProperty "hasOwnProperty" = true
          ∧ ∃ e, pushItem st a
              = { st with cachedData := st.cachedData ++ [a], raised := some e })
      ∨ (st.raised = none ∧ st.idToIndex.hasOwnProperty "hasOwnProperty" = false
          ∧ ∃ tagToIndexList r,
              (tagToIndexList, r)
                = (match a.tags with
                   | none => (st.tagToIndexList, none)
                   | some ts => pushTags st.index ts st.tagToIndexList)
              ∧ pushItem st a
                = { cachedData := st.cachedData ++ [a],
                    idToIndex := st.idToIndex.assignNumber a.id st.index,
                    tagToIndexList := tagToIndexList,
                    index := if r.isNone then st.index + 1 else st.index,
                    raised := r }) := by
  cases hr : st.raised with
  | some e =>
    left
    exact ⟨by simp, by simp [pushItem, hr]⟩
  | none =>
    right
    cases hh : st.idToIndex.hasOwnProperty "hasOwnProperty" with
    | true =>
      left
      refine ⟨rfl, rfl, .typeError "hasOwnProperty is not a function", ?_⟩
      simp [pushItem, hr, JsObj.callHasOwnProperty, hh]
    | false =>
      right
      refine ⟨rfl, rfl, ?_⟩
      cases ht : a.tags with
      | none =>
        refine ⟨st.tagToIndexList, none, rfl, ?_⟩
        simp [pushItem, hr, JsObj.callHasOwnProperty, hh, ht]
      | some ts =>
        cases hp : pushTags st.index ts st.tagToIndexList with
        | mk tagIdx r =>
          refine ⟨tagIdx, r, hp.symm, ?_⟩
          cases r with
          | none => simp [pushItem, hr, JsObj.callHasOwnProperty, hh, ht, hp]
          | some e => simp [pushItem, hr, JsObj.callHasOwnProperty, hh, ht, hp]

/-! ## Facts about every run of the loop -/

theorem assignNumber_apply (o : JsObj Nat) (k : String) (v : Nat) (k' : String) :
    (o.assignNumber k v) k'
      = if k = "__proto__" then o k' else if k' = k then some v else o k' := by
  unfold JsObj.assignNumber JsObj.set
  split <;> rfl

theorem build_no_raise_before (l : List Item) (a : Item)
    (hno : ((l ++ [a]).foldl pushItem IndexState.init).raised = none) :
    (l.foldl pushItem IndexState.init).raised = none := by
  rw [foldl_pushItem_snoc] at hno
  rcases pushItem_cases (l.foldl pushItem IndexState.init) a with
    ⟨h1, h2⟩ | ⟨h1, _, _⟩ | ⟨h1, _, _⟩
  · rw [h2] at hno
    exact absurd hno h1
  · exact h1
  · exact h1

theorem build_of_no_raise (items : List Item) :
    (items.foldl pushItem IndexState.init).raised = none →
      (items.foldl pushItem IndexState.init).cachedData = items
        ∧ (items.foldl pushItem IndexState.init).index = items.length := by
  induction items using List.reverseRecOn with
  | nil => intro _; exact ⟨rfl, rfl⟩
  | append_singleton l a ih =>
    intro hno
    obtain ⟨hc, hi⟩ := ih (build_no_raise_before l a hno)
    rw [foldl_pushItem_snoc] at hno ⊢
    rcases pushItem_cases (l.foldl pushItem IndexState.init) a with
      ⟨h1, h2⟩ | ⟨_, _, e, h2⟩ | ⟨_, _, tagIdx, r, _, h2⟩
    · rw [h2] at hno
      exact absurd hno h1
    · rw [h2] at hno
      cases hno
    · rw [h2] at hno ⊢
      simp only at hno
      subst hno
      simp [hc, hi]

theorem build_cachedData_initial (items : List Item) :
    (items.foldl pushItem IndexState.init).cachedData <+: items := by
  induction items using List.reverseRecOn with
  | nil => exact List.prefix_refl _
  | append_singleton l a ih =>
    rw [foldl_pushItem_snoc]
    rcases pushItem_cases (l.foldl pushItem IndexState.init) a with
      ⟨_, h2⟩ | ⟨h1, _, e, h2⟩ | ⟨h1, _, tagIdx, r, _, h2⟩
    · rw [h2]
      exact ih.trans (List.prefix_append _ _)
    · rw [h2]
      simp only
      rw [(build_of_no_raise l h1).1]
    · rw [h2]
      simp only
      rw [(build_of_no_raise l h1).1]

theorem build_cachedData_mem (items : List Item) :
    ∀ x ∈ (items.foldl pushItem IndexState.init).cachedData, x ∈ items :=
  fun _ hx => (build_cachedData_initial items).subset hx

/-- In every state of the loop the position counter does not exceed the
number of items pushed, and every value stored in `idToIndex` is the position
of an item that has been pushed. -/
theorem build_idToIndex_bound (items : List Item) :
    (items.foldl pushItem IndexState.init).index
        ≤ (items.foldl pushItem IndexState.init).cachedData.length
      ∧ ∀ k p, (items.foldl pushItem IndexState.init).idToIndex k = some p →
          p < (items.foldl pushItem IndexState.init).cachedData.length := by
  induction items using List.reverseRecOn with
  | nil =>
    refine ⟨Nat.le_refl _, ?_⟩
    intro k p h
    simp [IndexState.init, JsObj.empty] at h
  | append_singleton l a ih =>
    obtain ⟨hi, hb⟩ := ih
    rw [foldl_pushItem_snoc]
    rcases pushItem_cases (l.foldl pushItem IndexState.init) a with
      ⟨_, h2⟩ | ⟨_, _, e, h2⟩ | ⟨_, _, tagIdx, r, _, h2⟩
    · rw [h2]
      exact ⟨hi, hb⟩
    · rw [h2]
      simp only [List.length_append, List.length_singleton]
      refine ⟨by omega, ?_⟩
      intro k p h
      have := hb k p h
      omega
    · rw [h2]
      simp only [List.length_append, List.length_singleton]
      refine ⟨by split <;> omega, ?_⟩
      intro k p h
      rw [assignNumber_apply] at h
      split at h
      · have := hb k p h
        omega
      · split at h
        · cases h
          omega
        · have := hb k p h
          omega

/-! ## The id index of a run that completes -/

theorem build_idToIndex_snoc (l : List Item) (a : Item)
    (hno : ((l ++ [a]).foldl pushItem IndexState.init).raised = none) :
    ((l ++ [a]).foldl pushItem IndexState.init).idToIndex
      = (l.foldl pushItem IndexState.init).idToIndex.assignNumber a.id l.length := by
  obtain ⟨_, hi⟩ := build_of_no_raise l (build_no_raise_before l a hno)
  rw [foldl_pushItem_snoc] at hno ⊢
  rcases pushItem_cases (l.foldl pushItem IndexState.init) a with
    ⟨h1, h2⟩ | ⟨_, _, e, h2⟩ | ⟨_, _, tagIdx, r, _, h2⟩
  · rw [h2] at hno
    exact absurd hno h1
  · rw [h2] at hno
    cases hno
  · rw [h2]
    simp only [hi]

theorem build_idToIndex_proto (items : List Item)
    (hno : (items.foldl pushItem IndexState.init).raised = none) :
    (items.foldl pushItem IndexState.init).idToIndex "__proto__" = none := by
  induction items using List.reverseRecOn with
  | nil => rfl
  | append_singleton l a ih =>
    rw [build_idToIndex_snoc l a hno]
    have := ih (build_no_raise_before l a hno)
    rw [assignNumber_apply]
    split
    · exact this
    · rename_i hne
      have hne' : ¬ ("__proto__" = a.id) := fun e => hne e.symm
      simp only [hne', if_false]
      exact this

theorem build_idToIndex_none (items : List Item) (k : String)
    (hno : (items.foldl pushItem IndexState.init).raised = none) (hk : k ≠ "__proto__") :
    (items.foldl pushItem IndexState.init).idToIndex k = none ↔ ∀ it ∈ items, it.id ≠ k := by
  induction items using List.reverseRecOn with
  | nil => simp [IndexState.init, JsObj.empty]
  | append_singleton l a ih =>
    rw [build_idToIndex_snoc l a hno]
    have ih' := ih (build_no_raise_before l a hno)
    by_cases hka : k = a.id
    · have hap : ¬ a.id = "__proto__" := fun e => hk (hka.trans e)
      simp only [assignNumber_apply, hap, if_false, hka, if_true]
      constructor
      · intro h; cases h
      · intro h; exact absurd rfl (h a (by simp))
    · have hval : (l.foldl pushItem IndexState.init).idToIndex.assignNumber a.id l.length k
          = (l.foldl pushItem IndexState.init).idToIndex k := by
        rw [assignNumber_apply]
        split
        · rfl
        · simp [hka]
      rw [hval, ih']
      constructor
      · intro h it hit
        rcases List.mem_append.mp hit with h1 | h1
        · exact h it h1
        · simp at h1; subst h1; exact fun e => hka e.symm
      · intro h it hit
        exact h it (List.mem_append.mpr (Or.inl hit))

theorem build_idToIndex_some (items : List Item) (k : String) (p : Nat)
    (hno : (items.foldl pushItem IndexState.init).raised = none) (hk : k ≠ "__proto__") :
    (items.foldl pushItem IndexState.init).idToIndex k = some p ↔
      ∃ it, items[p]? = some it ∧ it.id = k ∧
        ∀ q it', p < q → items[q]? = some it' → it'.id ≠ k := by
  induction items using List.reverseRecOn with
  | nil => simp [IndexState.init, JsObj.empty]
  | append_singleton l a ih =>
    rw [build_idToIndex_snoc l a hno]
    have ih' := ih (build_no_raise_before l a hno)
    by_cases hka : k = a.id
    · have hap : ¬ a.id = "__proto__" := fun e => hk (hka.trans e)
      simp only [assignNumber_apply, hap, if_false, hka, if_true, Option.some.injEq]
      constructor
      · intro h
        subst h
        refine ⟨a, by simp, rfl, ?_⟩
        intro q it' hq hget
        have : q < (l ++ [a]).length := (List.getElem?_eq_some_iff.mp hget).1
        simp at this
        omega
      · rintro ⟨it, hget, _, hlast⟩
        have hp : p < (l ++ [a]).length := (List.getElem?_eq_some_iff.mp hget).1
        simp at hp
        by_contra hne
        have hlt : p < l.length := by omega
        exact hlast l.length a hlt (by simp) rfl
    · have hval : (l.foldl pushItem IndexState.init).idToIndex.assignNumber a.id l.length k
          = (l.foldl pushItem IndexState.init).idToIndex k := by
        rw [assignNumber_apply]
        split
        · rfl
        · simp [hka]
      rw [hval, ih']
      constructor
      · rintro ⟨it, hget, hid, hlast⟩
        have hp : p < l.length := (List.getElem?_eq_some_iff.mp hget).1
        refine ⟨it, by simpa [List.getElem?_append_left hp] using hget, hid, ?_⟩
        intro q it' hq hget'
        have hq' : q < (l ++ [a]).length := (List.getElem?_eq_some_iff.mp hget').1
        simp at hq'
        by_cases hql : q < l.length
        · rw [List.getElem?_append_left hql] at hget'
          exact hlast q it' hq hget'
        · have : q = l.length := by omega
          subst this
          simp at hget'
          subst hget'
          exact fun e => hka e.symm
      · rintro ⟨it, hget, hid, hlast⟩
        have hp : p < (l ++ [a]).length := (List.getElem?_eq_some_iff.mp hget).1
        simp at hp
        by_cases hpl : p < l.length
        · rw [List.getElem?_append_left hpl] at hget
          refine ⟨it, hget, hid, ?_⟩
          intro q it' hq hget'
          have hq' : q < l.length := (List.getElem?_eq_some_iff.mp hget').1
          exact hlast q it' hq (by simpa [List.getElem?_append_left hq'] using hget')
        · have : p = l.length := by omega
          subst this
          simp at hget
          subst hget
          exact absurd hid.symm hka

/-! ## Decoding a single row -/

theorem getColumnEntry_spec (d : List Row) (r c : Nat) :
    getColumnEntry d r c
      = (match d[r]? with
         | none => none
         | some rowArr =>
           match rowArr[c]? with
           | none => none
           | some none => none
           | some (some s) => if s = "" then none else some s) := by
  unfold getColumnEntry
  by_cases hr : r < d.length
  · simp only [gt_iff_lt, hr, if_true, List.getD_eq_getElem?_getD,
      List.getElem?_eq_getElem hr, Option.getD_some]
    by_cases hc : c < (d[r]).length
    · simp only [hc, if_true, List.getElem?_eq_getElem hc, Option.getD_some]
      cases hcell : (d[r])[c] with
      | none => rfl
      | some s =>
        by_cases hs : s = ""
        · subst hs; simp
        · have hpos : 0 < s.length := by
            rcases Nat.eq_zero_or_pos s.length with h | h
            · exact absurd (String.ext (List.length_eq_zero.mp h)) hs
            · exact h
          simp [hpos, hs]
    · simp [hc, List.getElem?_eq_none (Nat.not_lt.mp hc)]
  · simp [hr, List.getElem?_eq_none (Nat.not_lt.mp hr)]

theorem getColumnEntry_cellText (row : Row) (c : Nat) :
    getColumnEntry [row] 0 c = cellText row c := by
  rw [getColumnEntry_spec]
  unfold cellText
  simp only [List.getElem?_cons_zero]
  cases row[c]? with
  | none => rfl
  | some cell =>
    cases cell with
    | none => rfl
    | some s => rfl

theorem decodeRow_eq_schemaItem (toLowerCase : String → String) (row : Row) :
    decodeRow toLowerCase row = schemaItem toLowerCase row := by
  have h0 : ID_INDEX = 0 := by decide
  have h1 : LINK_INDEX = 1 := by decide
  have h2 : TYPE_INDEX = 2 := by decide
  have h3 : NAME_INDEX = 3 := by decide
  have h4 : TAGS_INDEX = 4 := by decide
  have h5 : DESCRIPTION_INDEX = 5 := by decide
  unfold decodeRow schemaItem getId getLink getType getName getTags getDescription
  simp only [h0, h1, h2, h3, h4, h5, getColumnEntry_cellText]
  cases cellText row 0 with
  | none => rfl
  | some id =>
    cases cellText row 4 with
    | none => rfl
    | some s => rfl

theorem getId_single (row : Row) (id : String) :
    getId [row] 0 = some id ↔ row.head? = some (some id) ∧ id ≠ "" := by
  have h0 : ID_INDEX = 0 := by decide
  unfold getId getColumnEntry
  rw [h0]
  cases row with
  | nil => simp
  | cons c rest =>
    cases c with
    | none => simp
    | some s =>
      by_cases hs : s = ""
      · subst hs
        simp
        intro h; exact h.symm
      · have hpos : 0 < s.length := by
          rcases Nat.eq_zero_or_pos s.length with h | h
          · exact absurd (String.ext (List.length_eq_zero.mp h)) hs
          · exact h
        simp [hpos]
        intro h; subst h; exact hs

theorem decodeRow_id (toLowerCase : String → String) (row : Row) (it : Item)
    (h : decodeRow toLowerCase row = some it) :
    getId [row] 0 = some it.id := by
  unfold decodeRow at h
  cases hid : getId [row] 0 with
  | none => simp [hid] at h
  | some id =>
    simp [hid] at h
    subst h
    rfl

theorem decodeRow_isSome (toLowerCase : String → String) (row : Row) :
    (decodeRow toLowerCase row).isSome = hasNonEmptyId row := by
  unfold decodeRow
  cases hid : getId [row] 0 with
  | none =>
    have hnone : ∀ id, ¬ (row.head? = some (some id) ∧ id ≠ "") := by
      intro id hc
      have := (getId_single row id).mpr hc
      rw [hid] at this
      cases this
    cases row with
    | nil => rfl
    | cons c rest =>
      cases c with
      | none => rfl
      | some s =>
        by_cases hs : s = ""
        · subst hs; rfl
        · exact absurd ⟨rfl, hs⟩ (hnone s)
  | some id =>
    obtain ⟨hhead, hne⟩ := (getId_single row id).mp hid
    simp [hasNonEmptyId, hhead, hne]

theorem filterMap_decodeRow (toLowerCase : String → String) (rows : List Row) :
    (rows.filterMap (decodeRow toLowerCase)).map some
      = (rows.filter hasNonEmptyId).map (decodeRow toLowerCase) := by
  induction rows with
  | nil => rfl
  | cons row rest ih =>
    have hs := decodeRow_isSome toLowerCase row
    cases hd : decodeRow toLowerCase row with
    | none =>
      rw [hd] at hs
      have : hasNonEmptyId row = false := by simpa using hs.symm
      simp [List.filterMap_cons, hd, List.filter_cons, this, ih]
    | some it =>
      rw [hd] at hs
      have : hasNonEmptyId row = true := by simpa using hs.symm
      simp [List.filterMap_cons, hd, List.filter_cons, this, ih]

theorem mem_filterMap_decodeRow_id (toLowerCase : String → String) (rows : List Row)
    (id : String) :
    (∃ it ∈ rows.filterMap (decodeRow toLowerCase), it.id = id) ↔
      ∃ row ∈ rows, row.head? = some (some id) ∧ id ≠ "" := by
  constructor
  · rintro ⟨it, hit, hid⟩
    obtain ⟨row, hrow, hdec⟩ := List.mem_filterMap.mp hit
    refine ⟨row, hrow, ?_⟩
    have := decodeRow_id toLowerCase row it hdec
    rw [hid] at this
    exact (getId_single row id).mp this
  · rintro ⟨row, hrow, hc⟩
    have hid := (getId_single row id).mpr hc
    cases hd : decodeRow toLowerCase row with
    | none =>
      unfold decodeRow at hd
      simp [hid] at hd
    | some it =>
      have := decodeRow_id toLowerCase row it hd
      rw [hid] at this
      exact ⟨it, List.mem_filterMap.mpr ⟨row, hrow, hd⟩, (Option.some.inj this).symm⟩

/-! ## The state left by `reindexDatabase` -/

theorem reindexDatabase_snapshot (toLowerCase : String → String) (self : ImladrisService)
    (hasCallback : Bool) (rows : List Row) :
    (reindexDatabase toLowerCase self hasCallback (.values rows)).self.cachedData
        = some ((rows.filterMap (decodeRow toLowerCase)).foldl pushItem
            IndexState.init).cachedData
      ∧ (reindexDatabase toLowerCase self hasCallback (.values rows)).self.idToIndex
        = some ((rows.filterMap (decodeRow toLowerCase)).foldl pushItem
            IndexState.init).idToIndex
      ∧ (reindexDatabase toLowerCase self hasCallback (.values rows)).self.tagToIndexList
        = some ((rows.filterMap (decodeRow toLowerCase)).foldl pushItem
            IndexState.init).tagToIndexList
      ∧ (reindexDatabase toLowerCase self hasCallback (.values rows)).raised
        = ((rows.filterMap (decodeRow toLowerCase)).foldl pushItem IndexState.init).raised := by
  simp only [reindexDatabase, reindexLoop_eq, and_self]

/-! ## The tag index of a run that completes -/

theorem tagIndex_get_of_ne_proto (o : TagIndex) (t : String) (ht : t ≠ "__proto__") :
    o.get t = o.own t := by
  simp [TagIndex.get, ht]

theorem tagIndex_step_own (o : TagIndex) (tag : String) (has : Bool) (list : List Nat)
    (index : Nat) (hhas : has = (o.own tag).isSome)
    (hget : (if !has then o.assignArray tag [] else o).get tag = some list)
    (t : String) (ht : t ≠ "__proto__") :
    ((if !has then o.assignArray tag [] else o).assignArray tag (list ++ [index])).own t
      = if t = tag then some ((o.own tag).getD [] ++ [index]) else o.own t := by
  by_cases htag : tag = "__proto__"
  · have hne : ¬ t = tag := fun e => ht (e.trans htag)
    subst htag
    cases has <;> simp [TagIndex.assignArray, hne]
  · by_cases htt : t = tag
    · subst htt
      cases ho : o.own t with
      | none =>
        have hf : has = false := by rw [hhas, ho]; rfl
        subst hf
        simp [TagIndex.get, TagIndex.assignArray, JsObj.set, htag] at hget ⊢
        rw [← hget]
      | some l0 =>
        have hf : has = true := by rw [hhas, ho]; rfl
        subst hf
        simp [TagIndex.get, TagIndex.assignArray, JsObj.set, htag, ho] at hget ⊢
        rw [← hget]
    · cases has <;> simp [TagIndex.assignArray, JsObj.set, htag, htt]

theorem pushTags_get (index : Nat) (ts : List String) :
    ∀ (o o' : TagIndex), pushTags index ts o = (o', none) →
      ∀ (t : String) (p : Nat), t ≠ "__proto__" →
        ((∃ ps, o'.own t = some ps ∧ p ∈ ps)
          ↔ (∃ ps, o.own t = some ps ∧ p ∈ ps) ∨ (p = index ∧ t ∈ ts)) := by
  induction ts with
  | nil =>
    intro o o' h t p _
    simp only [pushTags, Prod.mk.injEq, and_true] at h
    subst h
    simp
  | cons tag rest ih =>
    intro o o' h t p ht
    rw [pushTags] at h
    cases hcall : o.callHasOwnProperty tag with
    | error e =>
      rw [hcall] at h
      simp at h
    | ok has =>
      rw [hcall] at h
      simp only at h
      have hhas : has = (o.own tag).isSome := by
        unfold TagIndex.callHasOwnProperty JsObj.callHasOwnProperty at hcall
        split at hcall
        · cases hcall
        · cases hcall
          rfl
      cases hget : (if !has then o.assignArray tag [] else o).get tag with
      | none =>
        rw [hget] at h
        simp at h
      | some list =>
        rw [hget] at h
        simp only at h
        rw [ih _ o' h t p ht, tagIndex_step_own o tag has list index hhas hget t ht]
        by_cases htt : t = tag
        · subst htt
          simp only [if_true, Option.some.injEq, exists_eq_left', List.mem_append,
            List.mem_singleton, List.mem_cons, true_or, and_true]
          cases ho : o.own t with
          | none =>
            simp only [Option.getD_none, List.not_mem_nil, false_or, reduceCtorEq, false_and,
              exists_false]
            tauto
          | some l0 =>
            simp only [Option.getD_some, Option.some.injEq, exists_eq_left']
            tauto
        · simp only [htt, if_false, List.mem_cons, false_or]

theorem build_tagToIndexList (items : List Item) (t : String) (p : Nat)
    (hno : (items.foldl pushItem IndexState.init).raised = none) (ht : t ≠ "__proto__") :
    (∃ ps, (items.foldl pushItem IndexState.init).tagToIndexList.get t = some ps ∧ p ∈ ps) ↔
      ∃ it ts, items[p]? = some it ∧ it.tags = some ts ∧ t ∈ ts := by
  simp only [tagIndex_get_of_ne_proto _ t ht]
  induction items using List.reverseRecOn with
  | nil => simp [IndexState.init, TagIndex.empty, JsObj.empty]
  | append_singleton l a ih =>
    have hl := build_no_raise_before l a hno
    have ih' := ih hl
    obtain ⟨_, hi⟩ := build_of_no_raise l hl
    have hsplit : (∃ it ts, (l ++ [a])[p]? = some it ∧ it.tags = some ts ∧ t ∈ ts) ↔
        (∃ it ts, l[p]? = some it ∧ it.tags = some ts ∧ t ∈ ts)
          ∨ (p = l.length ∧ ∃ ts, a.tags = some ts ∧ t ∈ ts) := by
      constructor
      · rintro ⟨it, ts, hget, htags, hmem⟩
        have hp : p < (l ++ [a]).length := (List.getElem?_eq_some_iff.mp hget).1
        simp at hp
        by_cases hpl : p < l.length
        · rw [List.getElem?_append_left hpl] at hget
          exact Or.inl ⟨it, ts, hget, htags, hmem⟩
        · have : p = l.length := by omega
          subst this
          simp at hget
          subst hget
          exact Or.inr ⟨rfl, ts, htags, hmem⟩
      · rintro (⟨it, ts, hget, htags, hmem⟩ | ⟨hp, ts, htags, hmem⟩)
        · have hp : p < l.length := (List.getElem?_eq_some_iff.mp hget).1
          exact ⟨it, ts, by simpa [List.getElem?_append_left hp] using hget, htags, hmem⟩
        · subst hp
          exact ⟨a, ts, by simp, htags, hmem⟩
    rw [hsplit, ← ih']
    rw [foldl_pushItem_snoc] at hno ⊢
    rcases pushItem_cases (l.foldl pushItem IndexState.init) a with
      ⟨h1, h2⟩ | ⟨_, _, e, h2⟩ | ⟨_, _, tagIdx, r, hpair, h2⟩
    · rw [h2] at hno
      exact absurd hno h1
    · rw [h2] at hno
      cases hno
    · rw [h2] at hno ⊢
      simp only at hno
      subst hno
      simp only
      cases hta : a.tags with
      | none =>
        rw [hta] at hpair
        simp only [Prod.mk.injEq, and_true] at hpair
        subst hpair
        simp
      | some ts =>
        rw [hta] at hpair
        rw [pushTags_get _ ts _ tagIdx hpair.symm t p ht, hi]
        simp

/-! ## The items list -/

/-- C1 (code): on three rows whose first id is `hasOwnProperty`, all of them
with a non-empty Id, the rebuild pushes the first two rows, raises a
`TypeError` at the call `idToIndex.hasOwnProperty(id)` of the second row and
never reaches the third row or the callback: `cachedData` holds 2 items where
the data set has 3 rows with a non-empty Id. -/
theorem reindexDatabase_stops_after_id_hasOwnProperty (toLowerCase : String → String) :
    (rowsAfterHasOwnProperty.filter hasNonEmptyId).length = 3
      ∧ (reindexDatabase toLowerCase ImladrisService.new true
          (.values rowsAfterHasOwnProperty)).self.cachedData
        = some [{ id := "hasOwnProperty", link := some "l0", type := some "link",
                  name := some "n0", tags := none, description := some "d0" },
                { id := "B", link := some "l1", type := some "image", name := some "n1",
                  tags := none, description := some "d1" }]
      ∧ (reindexDatabase toLowerCase ImladrisService.new true
          (.values rowsAfterHasOwnProperty)).raised
        = some (.typeError "hasOwnProperty is not a function")
      ∧ (reindexDatabase toLowerCase ImladrisService.new true
          (.values rowsAfterHasOwnProperty)).callbackCalls = 0 := by
  exact ⟨by decide, rfl, rfl, rfl⟩

/-- The items list of a rebuild that runs to completion is the list of the
items that the schema assigns to the rows with a non-empty Id cell, in source
order; in every case it is an initial segment of that list. -/
theorem reindexDatabase_items_when_completed (toLowerCase : String → String)
    (self : ImladrisService) (hasCallback : Bool) (rows : List Row) :
    ∃ items,
      (reindexDatabase toLowerCase self hasCallback (.values rows)).self.cachedData
          = some items
        ∧ items.map some <+: (rows.filter hasNonEmptyId).map (schemaItem toLowerCase)
        ∧ ((reindexDatabase toLowerCase self hasCallback (.values rows)).raised ≠ none
            ∨ items.map some = (rows.filter hasNonEmptyId).map (schemaItem toLowerCase)) := by
  obtain ⟨h1, _, _, h4⟩ := reindexDatabase_snapshot toLowerCase self hasCallback rows
  have hdec : decodeRow toLowerCase = schemaItem toLowerCase :=
    funext (decodeRow_eq_schemaItem toLowerCase)
  refine ⟨_, h1, ?_, ?_⟩
  · rw [← hdec, ← filterMap_decodeRow]
    exact List.IsPrefix.map some (build_cachedData_initial _)
  · rw [h4]
    cases hr : ((rows.filterMap (decodeRow toLowerCase)).foldl pushItem
        IndexState.init).raised with
    | some e => exact Or.inl (by simp)
    | none =>
      right
      rw [(build_of_no_raise _ hr).1, ← hdec, filterMap_decodeRow]

/-! ## The id index -/

/-- C2 as stated fails: with two rows of the same id, the item stored at
position 0 is not the one that `idToIndex` leads back to. -/
theorem idToIndex_round_trip_fails_on_duplicates :
    ¬ (∀ (items : List Item) (idToIndex : JsObj Nat) (p : Nat) (it : Item),
        (reindexDatabase toLowerCaseAscii ImladrisService.new true
          (.values duplicateRows)).self.cachedData = some items →
        (reindexDatabase toLowerCaseAscii ImladrisService.new true
          (.values duplicateRows)).self.idToIndex = some idToIndex →
        items[p]? = some it → idToIndex it.id = some p) := by
  intro h
  have := h _ _ 0 _ rfl rfl rfl
  revert this
  decide

/-- C2 (amended): in the snapshot built by a rebuild that runs to completion,
looking up the id of the item at position p yields p whenever the id is not
`__proto__` and no later position holds an item with the same id. -/
theorem idToIndex_round_trip_of_last (toLowerCase : String → String)
    (self : ImladrisService) (hasCallback : Bool)
    (rows : List Row) (items : List Item) (idToIndex : JsObj Nat) (p : Nat) (it : Item)
    (hdone : (reindexDatabase toLowerCase self hasCallback (.values rows)).raised = none)
    (hitems : (reindexDatabase toLowerCase self hasCallback (.values rows)).self.cachedData
      = some items)
    (hindex : (reindexDatabase toLowerCase self hasCallback (.values rows)).self.idToIndex
      = some idToIndex)
    (hp : items[p]? = some it)
    (hproto : it.id ≠ "__proto__")
    (hlast : ∀ q it', p < q → items[q]? = some it' → it'.id ≠ it.id) :
    idToIndex it.id = some p := by
  obtain ⟨h1, h2, _, h4⟩ := reindexDatabase_snapshot toLowerCase self hasCallback rows
  rw [h4] at hdone
  rw [h1, (build_of_no_raise _ hdone).1] at hitems
  rw [h2] at hindex
  cases hitems
  cases hindex
  exact (build_idToIndex_some _ _ _ hdone hproto).mpr ⟨it, hp, rfl, hlast⟩

/-- The amended C2 at the rows `duplicateRows`, position 1. -/
theorem idToIndex_round_trip_of_last_witness :
    (reindexDatabase toLowerCaseAscii ImladrisService.new true
        (.values duplicateRows)).raised = none
      ∧ (reindexLoop toLowerCaseAscii duplicateRows).cachedData[1]?
        = some { id := "X", link := some "b", type := none, name := none, tags := none,
                 description := none }
      ∧ (reindexLoop toLowerCaseAscii duplicateRows).idToIndex "X" = some 1 :=
  ⟨by decide, by decide,
   idToIndex_round_trip_of_last toLowerCaseAscii ImladrisService.new true duplicateRows
    (reindexLoop toLowerCaseAscii duplicateRows).cachedData
    (reindexLoop toLowerCaseAscii duplicateRows).idToIndex 1
    { id := "X", link := some "b", type := none, name := none, tags := none,
      description := none }
    (by decide) rfl rfl (by decide) (by decide)
    (by
      intro q it' hq hget
      have hlen : (reindexLoop toLowerCaseAscii duplicateRows).cachedData.length = 2 := by
        decide
      have := (List.getElem?_eq_some_iff.mp hget).1
      omega)⟩

/-- C3 (code): with the id `X` at positions 0 and 2 and the id `hasOwnProperty`
between them, all three items are kept but the rebuild raises at the third
row before the assignment, so `idToIndex` maps `X` to 0 and not to its last
position 2; and with the id `__proto__` in two rows both items are kept and
`idToIndex` has no entry for the id at all. -/
theorem duplicate_id_last_position_lost (toLowerCase : String → String) :
    ((reindexDatabase toLowerCase ImladrisService.new true
          (.values duplicateAroundHasOwnProperty)).self.cachedData.map
            (fun items => items.map Item.id)) = some ["X", "hasOwnProperty", "X"]
      ∧ ((reindexDatabase toLowerCase ImladrisService.new true
          (.values duplicateAroundHasOwnProperty)).self.idToIndex.bind
            (fun idToIndex => idToIndex "X")) = some 0
      ∧ (reindexDatabase toLowerCase ImladrisService.new true
          (.values duplicateAroundHasOwnProperty)).raised
        = some (.typeError "hasOwnProperty is not a function")
      ∧ ((reindexDatabase toLowerCase ImladrisService.new true
          (.values [[some "__proto__"], [some "__proto__"]])).self.cachedData.map
            (fun items => items.map Item.id)) = some ["__proto__", "__proto__"]
      ∧ ((reindexDatabase toLowerCase ImladrisService.new true
          (.values [[some "__proto__"], [some "__proto__"]])).self.idToIndex.bind
            (fun idToIndex => idToIndex "__proto__")) = none
      ∧ (reindexDatabase toLowerCase ImladrisService.new true
          (.values [[some "__proto__"], [some "__proto__"]])).raised = none := by
  refine ⟨rfl, rfl, rfl, rfl, rfl, rfl⟩

/-! ## The tag index -/

/-- C4 (code): after a row with the id `hasOwnProperty` the rebuild raises at
the next row before its tag loop, so the item at position 1 carries the tag
`t2` while `tagToIndexList` has no list for `t2`; and when two rows carry the
tag `__proto__`, each assignment replaces the prototype of the object, so the
list read under `__proto__` holds position 1 only although the item at
position 0 carries the tag too. -/
theorem tagToIndexList_misses_tagged_items :
    ((reindexDatabase toLowerCaseAscii ImladrisService.new true
          (.values taggedRowsAfterHasOwnProperty)).self.cachedData.bind
            (fun items => (items[1]?).bind Item.tags)) = some ["t2"]
      ∧ ((reindexDatabase toLowerCaseAscii ImladrisService.new true
          (.values taggedRowsAfterHasOwnProperty)).self.tagToIndexList.bind
            (fun tagToIndexList => tagToIndexList.get "t2")) = none
      ∧ (reindexDatabase toLowerCaseAscii ImladrisService.new true
          (.values taggedRowsAfterHasOwnProperty)).raised
        = some (.typeError "hasOwnProperty is not a function")
      ∧ ((reindexDatabase toLowerCaseAscii ImladrisService.new true
          (.values rowsTaggedProto)).self.cachedData.bind
            (fun items => (items[0]?).bind Item.tags)) = some ["__proto__"]
      ∧ ((reindexDatabase toLowerCaseAscii ImladrisService.new true
          (.values rowsTaggedProto)).self.tagToIndexList.bind
            (fun tagToIndexList => tagToIndexList.get "__proto__")) = some [1]
      ∧ (reindexDatabase toLowerCaseAscii ImladrisService.new true
          (.values rowsTaggedProto)).raised = none := by
  decide

/-! ## Point lookup on a built snapshot -/

/-- C7 (code): on the snapshot built from the single row with the id
`hasOwnProperty`, `getCachedItemById` raises a `TypeError` for every id, also
for the id of that row; and on the snapshot built from the single row with
the id `__proto__` it returns null for `__proto__` although a row has that
id. -/
theorem getCachedItemById_fails_on_prototype_keys (toLowerCase : String → String)
    (id : String) :
    (reindexDatabase toLowerCase ImladrisService.new true
        (.values [[some "hasOwnProperty"]])).raised = none
      ∧ getCachedItemById (reindexDatabase toLowerCase ImladrisService.new true
          (.values [[some "hasOwnProperty"]])).self id
        = .error (.typeError "hasOwnProperty is not a function")
      ∧ (reindexDatabase toLowerCase ImladrisService.new true
        (.values [[some "__proto__"]])).raised = none
      ∧ getCachedItemById (reindexDatabase toLowerCase ImladrisService.new true
          (.values [[some "__proto__"]])).self "__proto__" = .ok none := by
  exact ⟨rfl, rfl, rfl, rfl⟩

/-! ## Which rows the index build skips -/

/-- C14 as stated fails: a row with a single cell, a non-empty Id, is shorter
than the schema and is nevertheless stored in `cachedData` and `idToIndex`. -/
theorem short_row_with_id_is_indexed :
    ¬ (∀ (rows : List Row) (row : Row) (id : String) (items : List Item)
        (idToIndex : JsObj Nat),
        row ∈ rows → row.length < COLUMNS.length → row.head? = some (some id) →
        (reindexDatabase toLowerCaseAscii ImladrisService.new true
          (.values rows)).self.cachedData = some items →
        (reindexDatabase toLowerCaseAscii ImladrisService.new true
          (.values rows)).self.idToIndex = some idToIndex →
        (∀ it ∈ items, it.id ≠ id) ∧ idToIndex id = none) := by
  intro h
  have := (h shortRowWithId [some "X"] "X" _ _ (by decide) (by decide) rfl rfl rfl).2
  revert this
  decide

/-- The item built from the short row of the counterexample: every field but
the id is null. -/
theorem short_row_with_id_item (toLowerCase : String → String) :
    (reindexDatabase toLowerCase ImladrisService.new true
        (.values shortRowWithId)).self.cachedData
      = some [{ id := "X", link := none, type := none, name := none, tags := none,
                description := none }] := by
  rfl

/-- C14 (amended): in a rebuild that runs to completion a row contributes an
item exactly when its Id cell is non-empty, whatever its width: the items are
those that the schema assigns to the rows with a non-empty Id, a row with an
empty or missing Id cell is in neither `cachedData` nor `idToIndex`, every id
other than `__proto__` is a key of `idToIndex` exactly when a row has it as
its non-empty Id, and a cell that a short row lacks is decoded as null. -/
theorem index_build_skips_exactly_rows_without_id (toLowerCase : String → String)
    (self : ImladrisService) (hasCallback : Bool) (rows : List Row)
    (hdone : (reindexDatabase toLowerCase self hasCallback (.values rows)).raised = none) :
    ∃ items idToIndex,
      (reindexDatabase toLowerCase self hasCallback (.values rows)).self.cachedData
          = some items
        ∧ (reindexDatabase toLowerCase self hasCallback (.values rows)).self.idToIndex
          = some idToIndex
        ∧ items.length = (rows.filter hasNonEmptyId).length
        ∧ (∀ it, it ∈ items ↔
            ∃ row ∈ rows, hasNonEmptyId row = true ∧ schemaItem toLowerCase row = some it)
        ∧ (∀ k, k = "__proto__"
            ∨ (idToIndex k ≠ none ↔ ∃ row ∈ rows, row.head? = some (some k) ∧ k ≠ ""))
        ∧ (∀ (row : Row) (c : Nat), c < row.length ∨ getColumnEntry [row] 0 c = none) := by
  obtain ⟨h1, h2, _, h4⟩ := reindexDatabase_snapshot toLowerCase self hasCallback rows
  rw [h4] at hdone
  rw [(build_of_no_raise _ hdone).1] at h1
  refine ⟨_, _, h1, h2, ?_, ?_, ?_, ?_⟩
  · have := congrArg List.length (filterMap_decodeRow toLowerCase rows)
    simpa using this
  · intro it
    rw [List.mem_filterMap]
    constructor
    · rintro ⟨row, hrow, hdec⟩
      refine ⟨row, hrow, ?_, ?_⟩
      · rw [← decodeRow_isSome toLowerCase, hdec]
        rfl
      · rw [← decodeRow_eq_schemaItem]
        exact hdec
    · rintro ⟨row, hrow, _, hdec⟩
      exact ⟨row, hrow, by rw [decodeRow_eq_schemaItem]; exact hdec⟩
  · intro k
    by_cases hk : k = "__proto__"
    · exact Or.inl hk
    · right
      rw [← mem_filterMap_decodeRow_id toLowerCase, ne_eq,
        build_idToIndex_none _ _ hdone hk]
      push_neg
      rfl
  · intro row c
    by_cases hc : c < row.length
    · exact Or.inl hc
    · right
      simp [getColumnEntry, hc]

/-- The amended C14 on the data set whose only row is `[X]`. -/
theorem index_build_skips_exactly_rows_without_id_witness :
    (reindexDatabase toLowerCaseAscii ImladrisService.new true
        (.values shortRowWithId)).raised = none
      ∧ ∃ items idToIndex,
          (reindexDatabase toLowerCaseAscii ImladrisService.new true
            (.values shortRowWithId)).self.cachedData = some items
          ∧ (reindexDatabase toLowerCaseAscii ImladrisService.new true
            (.values shortRowWithId)).self.idToIndex = some idToIndex
          ∧ items.length = (shortRowWithId.filter hasNonEmptyId).length
          ∧ (∀ it, it ∈ items ↔
              ∃ row ∈ shortRowWithId,
                hasNonEmptyId row = true ∧ schemaItem toLowerCaseAscii row = some it)
          ∧ (∀ k, k = "__proto__"
              ∨ (idToIndex k ≠ none ↔
                  ∃ row ∈ shortRowWithId, row.head? = some (some k) ∧ k ≠ ""))
          ∧ (∀ (row : Row) (c : Nat), c < row.length ∨ getColumnEntry [row] 0 c = none) :=
  ⟨by decide,
   index_build_skips_exactly_rows_without_id toLowerCaseAscii ImladrisService.new true
    shortRowWithId (by decide)⟩

/-! ## Cell extraction -/

/-- C15: `getColumnEntry` returns null when the row does not exist, when the
row has no cell at the column, or when the cell is null or of zero length,
and the cell itself otherwise; hence the result is never the empty string,
and the link, type, name and description of every item of a built snapshot
are null or non-empty. -/
theorem getColumnEntry_null_or_non_empty (toLowerCase : String → String) (data : List Row)
    (row column : Nat) (self : ImladrisService) (hasCallback : Bool) :
    getColumnEntry data row column
        = (match data[row]? with
           | none => none
           | some rowArr =>
             match rowArr[column]? with
             | none => none
             | some none => none
             | some (some s) => if s = "" then none else some s)
      ∧ getColumnEntry data row column ≠ some ""
      ∧ ∃ items,
          (reindexDatabase toLowerCase self hasCallback (.values data)).self.cachedData
              = some items
            ∧ ∀ it ∈ items, it.link ≠ some "" ∧ it.type ≠ some "" ∧ it.name ≠ some ""
                ∧ it.description ≠ some "" := by
  have hne : ∀ (d : List Row) (r c : Nat), getColumnEntry d r c ≠ some "" := by
    intro d r c h
    simp only [getColumnEntry] at h
    split at h
    · split at h
      · split at h
        · split at h
          · rename_i s _ hpos
            have hs : s = "" := (Option.some.inj h)
            rw [hs] at hpos
            exact absurd hpos (by decide)
          · cases h
        · cases h
      · cases h
    · cases h
  refine ⟨getColumnEntry_spec data row column, hne data row column, _,
    (reindexDatabase_snapshot toLowerCase self hasCallback data).1, ?_⟩
  intro it hit
  have hit' := build_cachedData_mem _ it hit
  obtain ⟨r, _, hdec⟩ := List.mem_filterMap.mp hit'
  unfold decodeRow at hdec
  cases hid : getId [r] 0 with
  | none => simp [hid] at hdec
  | some id =>
    simp only [hid, Option.some.injEq] at hdec
    subst hdec
    exact ⟨hne [r] 0 LINK_INDEX, hne [r] 0 TYPE_INDEX, hne [r] 0 NAME_INDEX,
      hne [r] 0 DESCRIPTION_INDEX⟩

/-! ## The defensive range check of `getCachedItemById` -/

/-- C20: every value stored in `idToIndex` by `reindexDatabase` is a position
`p` with `0 ≤ p < cachedData.length`, so the test
`index < 0 || index >= cachedData.length` of `getCachedItemById` is false for
it. -/
theorem idToIndex_values_are_valid_positions (toLowerCase : String → String)
    (self : ImladrisService) (hasCallback : Bool)
    (rows : List Row) (items : List Item) (idToIndex : JsObj Nat) (id : String) (p : Nat)
    (hitems : (reindexDatabase toLowerCase self hasCallback (.values rows)).self.cachedData
      = some items)
    (hindex : (reindexDatabase toLowerCase self hasCallback (.values rows)).self.idToIndex
      = some idToIndex)
    (hp : idToIndex id = some p) :
    0 ≤ p ∧ p < items.length
      ∧ (decide (p < 0) || decide (p ≥ items.length)) = false := by
  obtain ⟨h1, h2, _, _⟩ := reindexDatabase_snapshot toLowerCase self hasCallback rows
  rw [h1] at hitems
  rw [h2] at hindex
  cases hitems
  cases hindex
  have hlt := (build_idToIndex_bound _).2 id p hp
  refine ⟨Nat.zero_le _, hlt, ?_⟩
  simp [hlt]

/-- C20 on the rows `rowsWithXAt2And5`, for the id `X`. -/
theorem idToIndex_values_are_valid_positions_witness :
    (reindexLoop toLowerCaseAscii rowsWithXAt2And5).idToIndex "X" = some 5
      ∧ 0 ≤ 5 ∧ 5 < (reindexLoop toLowerCaseAscii rowsWithXAt2And5).cachedData.length
      ∧ (decide (5 < 0)
          || decide (5 ≥ (reindexLoop toLowerCaseAscii rowsWithXAt2And5).cachedData.length))
          = false :=
  ⟨by decide,
   idToIndex_values_are_valid_positions toLowerCaseAscii ImladrisService.new true
    rowsWithXAt2And5 (reindexLoop toLowerCaseAscii rowsWithXAt2And5).cachedData
    (reindexLoop toLowerCaseAscii rowsWithXAt2And5).idToIndex "X" 5
    rfl rfl (by decide)⟩

/-! ## The indexes of a rebuild that runs to completion -/

theorem countP_filterMap_decodeRow (toLowerCase : String → String) (rows : List Row)
    (id : String) (hne : id ≠ "") :
    (rows.filterMap (decodeRow toLowerCase)).countP (fun it => it.id == id)
      = rows.countP (fun row => row.head? == some (some id)) := by
  induction rows with
  | nil => rfl
  | cons row rest ih =>
    cases hd : decodeRow toLowerCase row with
    | none =>
      have hno : ¬ (row.head? = some (some id)) := by
        intro hh
        have := (getId_single row id).mpr ⟨hh, hne⟩
        unfold decodeRow at hd
        simp [this] at hd
      simp [List.filterMap_cons, hd, List.countP_cons, hno, ih]
    | some it =>
      have hid := decodeRow_id toLowerCase row it hd
      have hiff : it.id = id ↔ row.head? = some (some id) := by
        constructor
        · intro e
          rw [e] at hid
          exact ((getId_single row id).mp hid).1
        · intro hh
          have := (getId_single row id).mpr ⟨hh, hne⟩
          rw [hid] at this
          exact Option.some.inj this
      by_cases hc : it.id = id
      · simp [List.filterMap_cons, hd, List.countP_cons, hc, hiff.mp hc, ih]
      · have hc' : ¬ row.head? = some (some id) := fun hh => hc (hiff.mpr hh)
        simp [List.filterMap_cons, hd, List.countP_cons, hc, hc', ih]

/-- When the rebuild runs to completion and a non-empty id other than
`__proto__` occurs in the fetched rows, `cachedData` holds one item with that
id for every row carrying it, and `idToIndex` maps the id to the position of
the last of these items. -/
theorem duplicate_id_last_wins_when_completed (toLowerCase : String → String)
    (self : ImladrisService) (hasCallback : Bool) (rows : List Row) (id : String)
    (hdone : (reindexDatabase toLowerCase self hasCallback (.values rows)).raised = none)
    (hproto : id ≠ "__proto__")
    (hocc : ∃ row ∈ rows, row.head? = some (some id) ∧ id ≠ "") :
    ∃ items idToIndex,
      (reindexDatabase toLowerCase self hasCallback (.values rows)).self.cachedData
          = some items
        ∧ (reindexDatabase toLowerCase self hasCallback (.values rows)).self.idToIndex
          = some idToIndex
        ∧ items.countP (fun it => it.id == id)
            = rows.countP (fun row => row.head? == some (some id))
        ∧ ∃ p it, idToIndex id = some p ∧ items[p]? = some it ∧ it.id = id
            ∧ ∀ (q : Nat) (it' : Item), p < q → items[q]? = some it' → it'.id ≠ id := by
  obtain ⟨h1, h2, _, h4⟩ := reindexDatabase_snapshot toLowerCase self hasCallback rows
  rw [h4] at hdone
  rw [(build_of_no_raise _ hdone).1] at h1
  have hne : id ≠ "" := by
    obtain ⟨_, _, _, h⟩ := hocc
    exact h
  refine ⟨_, _, h1, h2, countP_filterMap_decodeRow toLowerCase rows id hne, ?_⟩
  have hmem := (mem_filterMap_decodeRow_id toLowerCase rows id).mpr hocc
  cases hidx : ((rows.filterMap (decodeRow toLowerCase)).foldl pushItem
      IndexState.init).idToIndex id with
  | none =>
    obtain ⟨it, hit, hid⟩ := hmem
    exact absurd hid ((build_idToIndex_none _ _ hdone hproto).mp hidx it hit)
  | some p =>
    obtain ⟨it, hget, hid, hlast⟩ := (build_idToIndex_some _ _ _ hdone hproto).mp hidx
    exact ⟨p, it, rfl, hget, hid, hlast⟩

/-- The example of the specification: with the id `X` at positions 2 and 5,
both items are kept and `idToIndex` maps `X` to 5. -/
theorem duplicate_id_at_2_and_5 :
    (reindexLoop toLowerCaseAscii rowsWithXAt2And5).raised = none
      ∧ (reindexLoop toLowerCaseAscii rowsWithXAt2And5).cachedData.length = 6
      ∧ ((reindexLoop toLowerCaseAscii rowsWithXAt2And5).cachedData[2]?).map Item.id
          = some "X"
      ∧ ((reindexLoop toLowerCaseAscii rowsWithXAt2And5).cachedData[5]?).map Item.id
          = some "X"
      ∧ (reindexLoop toLowerCaseAscii rowsWithXAt2And5).idToIndex "X" = some 5 := by
  decide

/-- When the rebuild runs to completion, a position p occurs in the list that
`tagToIndexList` holds for a tag other than `__proto__` exactly when the tag
is one of the tags of the item at position p. -/
theorem tagToIndexList_when_completed (toLowerCase : String → String)
    (self : ImladrisService) (hasCallback : Bool) (rows : List Row) (t : String) (p : Nat)
    (hdone : (reindexDatabase toLowerCase self hasCallback (.values rows)).raised = none)
    (hproto : t ≠ "__proto__") :
    ∃ items tagToIndexList,
      (reindexDatabase toLowerCase self hasCallback (.values rows)).self.cachedData
          = some items
        ∧ (reindexDatabase toLowerCase self hasCallback (.values rows)).self.tagToIndexList
            = some tagToIndexList
        ∧ ((∃ ps, tagToIndexList.get t = some ps ∧ p ∈ ps) ↔
            ∃ it ts, items[p]? = some it ∧ it.tags = some ts ∧ t ∈ ts) := by
  obtain ⟨h1, _, h3, h4⟩ := reindexDatabase_snapshot toLowerCase self hasCallback rows
  rw [h4] at hdone
  rw [(build_of_no_raise _ hdone).1] at h1
  exact ⟨_, _, h1, h3, build_tagToIndexList _ t p hdone hproto⟩

/-- When the rebuild runs to completion and no row has the id
`hasOwnProperty`, `getCachedItemById` returns, for an id other than
`__proto__`, null exactly when no row has the id as its non-empty Id cell,
and otherwise the item stored at `idToIndex[id]`, whose id is the queried
one. -/
theorem getCachedItemById_when_completed (toLowerCase : String → String)
    (self : ImladrisService) (hasCallback : Bool) (rows : List Row) (id : String)
    (hdone : (reindexDatabase toLowerCase self hasCallback (.values rows)).raised = none)
    (hmethod : ∀ row ∈ rows, row.head? ≠ some (some "hasOwnProperty"))
    (hproto : id ≠ "__proto__") :
    (getCachedItemById (reindexDatabase toLowerCase self hasCallback (.values rows)).self id
          = .ok none
        ↔ ¬ ∃ row ∈ rows, row.head? = some (some id) ∧ id ≠ "")
      ∧ (getCachedItemById (reindexDatabase toLowerCase self hasCallback (.values rows)).self
            id = .ok none
          ∨ ∃ it items idToIndex p,
              getCachedItemById
                  (reindexDatabase toLowerCase self hasCallback (.values rows)).self id
                = .ok (some it)
              ∧ it.id = id
              ∧ (reindexDatabase toLowerCase self hasCallback (.values rows)).self.cachedData
                  = some items
              ∧ (reindexDatabase toLowerCase self hasCallback (.values rows)).self.idToIndex
                  = some idToIndex
              ∧ idToIndex id = some p ∧ items[p]? = some it) := by
  obtain ⟨h1, h2, _, h4⟩ := reindexDatabase_snapshot toLowerCase self hasCallback rows
  rw [h4] at hdone
  rw [(build_of_no_raise _ hdone).1] at h1
  have hown : ((rows.filterMap (decodeRow toLowerCase)).foldl pushItem
      IndexState.init).idToIndex.hasOwnProperty "hasOwnProperty" = false := by
    have hnone : ((rows.filterMap (decodeRow toLowerCase)).foldl pushItem
        IndexState.init).idToIndex "hasOwnProperty" = none := by
      rw [build_idToIndex_none _ _ hdone (by decide)]
      intro it hit hid
      obtain ⟨row, hrow, hhead, _⟩ :=
        (mem_filterMap_decodeRow_id toLowerCase rows "hasOwnProperty").mp ⟨it, hit, hid⟩
      exact hmethod row hrow hhead
    simp [JsObj.hasOwnProperty, hnone]
  have hget : getCachedItemById
        (reindexDatabase toLowerCase self hasCallback (.values rows)).self id
      = match ((rows.filterMap (decodeRow toLowerCase)).foldl pushItem
          IndexState.init).idToIndex id with
        | none => .ok none
        | some p => .ok (rows.filterMap (decodeRow toLowerCase))[p]? := by
    have hcall : ((rows.filterMap (decodeRow toLowerCase)).foldl pushItem
        IndexState.init).idToIndex.callHasOwnProperty id
        = .ok (((rows.filterMap (decodeRow toLowerCase)).foldl pushItem
            IndexState.init).idToIndex id).isSome := by
      unfold JsObj.callHasOwnProperty
      rw [hown]
      rfl
    unfold getCachedItemById
    rw [h1, h2]
    simp only [hcall]
    cases hidx : ((rows.filterMap (decodeRow toLowerCase)).foldl pushItem
        IndexState.init).idToIndex id with
    | none => rfl
    | some p =>
      obtain ⟨it, hp, _, _⟩ := (build_idToIndex_some _ _ _ hdone hproto).mp hidx
      have hlt : p < (rows.filterMap (decodeRow toLowerCase)).length :=
        (List.getElem?_eq_some_iff.mp hp).1
      simp [hlt]
  refine ⟨?_, ?_⟩
  · rw [hget, ← mem_filterMap_decodeRow_id toLowerCase]
    cases hidx : ((rows.filterMap (decodeRow toLowerCase)).foldl pushItem
        IndexState.init).idToIndex id with
    | none =>
      have := (build_idToIndex_none _ _ hdone hproto).mp hidx
      simp only [true_iff]
      rintro ⟨it, hit, hid⟩
      exact this it hit hid
    | some p =>
      obtain ⟨it, hp, hid, _⟩ := (build_idToIndex_some _ _ _ hdone hproto).mp hidx
      simp only [hp]
      constructor
      · intro h; cases h
      · intro h
        exact absurd ⟨it, List.getElem?_mem hp, hid⟩ h
  · rw [hget]
    cases hidx : ((rows.filterMap (decodeRow toLowerCase)).foldl pushItem
        IndexState.init).idToIndex id with
    | none => exact Or.inl rfl
    | some p =>
      obtain ⟨it, hp, hid, _⟩ := (build_idToIndex_some _ _ _ hdone hproto).mp hidx
      refine Or.inr ⟨it, _, _, p, ?_, hid, h1, h2, hidx, hp⟩
      simp only [hp]

/-! ## Staleness decision of `refreshDatabase` -/

/-- C5: `refreshDatabase` starts a rebuild and returns false exactly when
`forceUpdate` is set, or no snapshot is held, or the current time is later
than `lastIndexTimestamp + 30000`.  In that case the state it leaves is the
one left by `reindexDatabase` on the response, with the timestamp set to the
current time, the callback is invoked from the rebuild only, and on fetched
rows the three index fields are those built by the loop from these rows.  In
every other case it starts no rebuild, invokes the callback immediately,
returns true and leaves the state as it was. -/
theorem refreshDatabase_rebuilds_iff_stale (toLowerCase : String → String)
    (self : ImladrisService) (forceUpdate : Bool) (currentTime : Int)
    (response : FetchResponse) (rows : List Row) :
    (((refreshDatabase toLowerCase self forceUpdate currentTime response).rebuildStarted = true
        ∧ (refreshDatabase toLowerCase self forceUpdate currentTime response).returned = false)
        ↔ (forceUpdate = true ∨ self.cachedData = none
            ∨ currentTime > self.lastIndexTimestamp + 30000))
      ∧ (((forceUpdate = true ∨ self.cachedData = none
            ∨ currentTime > self.lastIndexTimestamp + 30000)
          ∧ refreshDatabase toLowerCase self forceUpdate currentTime response
            = { self := { (reindexDatabase toLowerCase self true response).self with
                          lastIndexTimestamp := currentTime },
                returned := false, rebuildStarted := true, immediateCallback := false,
                rebuildCallbacks := (reindexDatabase toLowerCase self true response).callbackCalls,
                rebuildRaised := (reindexDatabase toLowerCase self true response).raised }
          ∧ (refreshDatabase toLowerCase self forceUpdate currentTime (.values rows)).self
            = { cachedData := some (reindexLoop toLowerCase rows).cachedData,
                idToIndex := some (reindexLoop toLowerCase rows).idToIndex,
                tagToIndexList := some (reindexLoop toLowerCase rows).tagToIndexList,
                lastIndexTimestamp := currentTime }
          ∧ (refreshDatabase toLowerCase self forceUpdate currentTime
              (.values rows)).rebuildCallbacks
            = (if (reindexLoop toLowerCase rows).raised = none then 1 else 0))
        ∨ (¬ (forceUpdate = true ∨ self.cachedData = none
              ∨ currentTime > self.lastIndexTimestamp + 30000)
          ∧ refreshDatabase toLowerCase self forceUpdate currentTime response
            = { self := self, returned := true, rebuildStarted := false,
                immediateCallback := true, rebuildCallbacks := 0, rebuildRaised := none })) := by
  have hexp : CACHE_EXPIRY_TIME = 30000 := by decide
  by_cases hc : forceUpdate = true ∨ self.cachedData = none
      ∨ currentTime > self.lastIndexTimestamp + 30000
  · have hcond : (forceUpdate || self.cachedData.isNone
        || decide (currentTime > self.lastIndexTimestamp + CACHE_EXPIRY_TIME)) = true := by
      rw [hexp]
      rcases hc with h | h | h
      · simp [h]
      · simp [h]
      · simp [h]
    refine ⟨?_, Or.inl ⟨hc, ?_, ?_, ?_⟩⟩
    · simp [refreshDatabase, hcond, hc]
    · simp only [refreshDatabase, hcond, if_true]
    · simp only [refreshDatabase, hcond, if_true, reindexDatabase]
    · simp only [refreshDatabase, hcond, if_true, reindexDatabase]
      cases (reindexLoop toLowerCase rows).raised <;> simp
  · have hcond : (forceUpdate || self.cachedData.isNone
        || decide (currentTime > self.lastIndexTimestamp + CACHE_EXPIRY_TIME)) = false := by
      rw [hexp]
      push_neg at hc
      obtain ⟨h1, h2, h3⟩ := hc
      have h1' : forceUpdate = false := by simpa using h1
      have h2' : self.cachedData.isNone = false := by
        cases hcd : self.cachedData with
        | none => exact absurd hcd h2
        | some _ => rfl
      simp [h1', h2', h3]
    refine ⟨?_, Or.inr ⟨hc, ?_⟩⟩
    · simp [refreshDatabase, hcond, hc]
    · simp [refreshDatabase, hcond]

/-- C6 as stated fails: with a snapshot built at time 0 and no forced
update, a call at time 30000 (exactly 30000 ms elapsed) starts no rebuild. -/
theorem refreshDatabase_not_rebuilt_at_exact_expiry :
    ¬ (∀ (self : ImladrisService) (currentTime : Int) (response : FetchResponse),
        self.cachedData ≠ none →
        ((refreshDatabase toLowerCaseAscii self false currentTime response).rebuildStarted
            = true
          ↔ currentTime - self.lastIndexTimestamp ≥ 30000)) := by
  intro h
  have h1 := h snapshotBuiltAtZero 30000 (.values []) (by simp [snapshotBuiltAtZero])
  have h2 : (refreshDatabase toLowerCaseAscii snapshotBuiltAtZero false 30000
      (.values [])).rebuildStarted = false := by decide
  rw [h2] at h1
  have h3 : (30000 : Int) - snapshotBuiltAtZero.lastIndexTimestamp ≥ 30000 := by decide
  exact absurd (h1.mpr h3) (by decide)

/-- C6 (amended): with a snapshot held and no forced update, a rebuild is
started exactly when more than 30000 ms have elapsed since
`lastIndexTimestamp`. -/
theorem refreshDatabase_rebuilds_iff_expired (toLowerCase : String → String)
    (self : ImladrisService) (currentTime : Int)
    (response : FetchResponse) (hheld : self.cachedData ≠ none) :
    (refreshDatabase toLowerCase self false currentTime response).rebuildStarted = true
      ↔ currentTime - self.lastIndexTimestamp > 30000 := by
  have hexp : CACHE_EXPIRY_TIME = 30000 := by decide
  have h2 : self.cachedData.isNone = false := by
    cases hcd : self.cachedData with
    | none => exact absurd hcd hheld
    | some _ => rfl
  by_cases hc : currentTime > self.lastIndexTimestamp + 30000
  · have : currentTime - self.lastIndexTimestamp > 30000 := by omega
    simp [refreshDatabase, h2, hexp, hc, this]
  · have : ¬ currentTime - self.lastIndexTimestamp > 30000 := by omega
    simp [refreshDatabase, h2, hexp, hc, this]

/-- The amended C6 at a snapshot built at time 0 and a call at time 30001. -/
theorem refreshDatabase_rebuilds_iff_expired_witness :
    snapshotBuiltAtZero.cachedData ≠ none
      ∧ ((refreshDatabase toLowerCaseAscii snapshotBuiltAtZero false 30001
            (.values [])).rebuildStarted = true
          ↔ (30001 : Int) - snapshotBuiltAtZero.lastIndexTimestamp > 30000) :=
  ⟨by simp [snapshotBuiltAtZero],
   refreshDatabase_rebuilds_iff_expired toLowerCaseAscii snapshotBuiltAtZero 30001
    (.values []) (by simp [snapshotBuiltAtZero])⟩

/-! ## A failed fetch -/

/-- C19 as stated fails: a first `refreshDatabase` call at time 1000 whose
fetch fails changes `lastIndexTimestamp` from -999 to 1000. -/
theorem failed_fetch_changes_timestamp :
    ¬ (∀ (self : ImladrisService) (forceUpdate : Bool) (currentTime : Int) (e : String),
        (refreshDatabase toLowerCaseAscii self forceUpdate currentTime
            (.err e)).self.lastIndexTimestamp
          = self.lastIndexTimestamp) := by
  intro h
  have := h ImladrisService.new false 1000 "network"
  revert this
  decide

/-- C19 (amended): a `refreshDatabase` call whose fetch fails leaves
`cachedData`, `idToIndex` and `tagToIndexList` as they were and never invokes
the callback from the rebuild; when the call started a rebuild it invokes no
callback at all and sets `lastIndexTimestamp` to the current time, otherwise
the timestamp is unchanged too. -/
theorem failed_fetch_keeps_snapshot (toLowerCase : String → String)
    (self : ImladrisService) (forceUpdate : Bool) (currentTime : Int) (e : String) :
    (refreshDatabase toLowerCase self forceUpdate currentTime (.err e)).self.cachedData
        = self.cachedData
      ∧ (refreshDatabase toLowerCase self forceUpdate currentTime (.err e)).self.idToIndex
          = self.idToIndex
      ∧ (refreshDatabase toLowerCase self forceUpdate currentTime
            (.err e)).self.tagToIndexList = self.tagToIndexList
      ∧ (refreshDatabase toLowerCase self forceUpdate currentTime (.err e)).rebuildCallbacks
          = 0
      ∧ (((refreshDatabase toLowerCase self forceUpdate currentTime (.err e)).rebuildStarted
              = true
            ∧ (refreshDatabase toLowerCase self forceUpdate currentTime
                (.err e)).immediateCallback = false
            ∧ (refreshDatabase toLowerCase self forceUpdate currentTime
                (.err e)).self.lastIndexTimestamp = currentTime)
          ∨ ((refreshDatabase toLowerCase self forceUpdate currentTime
                (.err e)).rebuildStarted = false
            ∧ (refreshDatabase toLowerCase self forceUpdate currentTime
                (.err e)).self.lastIndexTimestamp = self.lastIndexTimestamp)) := by
  unfold refreshDatabase
  split
  · simp [reindexDatabase]
  · simp

/-! ## The scan loop of `getMatchingRows` -/

theorem scanRows_cons (columnIndex : Nat) (filter : Cell → Bool) (firstOnly : Bool)
    (row : Row) (rest : List Row) (st : MatchState) :
    scanRows columnIndex filter firstOnly (row :: rest) st =
      if rowMatches columnIndex filter row then
        if firstOnly then
          { st with rowIndex := st.rowIndex + 1,
                    calls := st.calls ++ [([st.rowIndex + 1], [row])] }
        else
          scanRows columnIndex filter firstOnly rest
            { st with rowIndex := st.rowIndex + 1,
                      matchingIndices := st.matchingIndices ++ [st.rowIndex + 1],
                      matchingRows := st.matchingRows ++ [row] }
      else
        scanRows columnIndex filter firstOnly rest { st with rowIndex := st.rowIndex + 1 } := by
  rw [scanRows]
  by_cases hlen : columnIndex ≥ row.length
  · have hm : rowMatches columnIndex filter row = false := by
      unfold rowMatches
      rw [decide_eq_false (Nat.not_lt.mpr hlen)]
      rfl
    simp only [hlen, if_true, hm, Bool.false_eq_true, if_false]
  · have hlt : columnIndex < row.length := by omega
    have hm : rowMatches columnIndex filter row = filter (row.getD columnIndex none) := by
      unfold rowMatches
      rw [decide_eq_true hlt]
      rfl
    simp only [hlen, if_false, hm]

theorem scanRows_firstOnly_no_match (columnIndex : Nat) (filter : Cell → Bool)
    (rows : List Row) (st : MatchState)
    (hno : ∀ r ∈ rows, rowMatches columnIndex filter r = false) :
    scanRows columnIndex filter true rows st
      = { st with rowIndex := st.rowIndex + rows.length } := by
  induction rows generalizing st with
  | nil => simp [scanRows]
  | cons r rest ih =>
    have hr := hno r (List.mem_cons_self _ _)
    have hrest : ∀ x ∈ rest, rowMatches columnIndex filter x = false :=
      fun x hx => hno x (List.mem_cons_of_mem _ hx)
    rw [scanRows_cons, hr]
    simp only [Bool.false_eq_true, if_false]
    rw [ih _ hrest]
    simp [Int.add_assoc, Int.add_comm 1]

theorem scanRows_firstOnly_match (columnIndex : Nat) (filter : Cell → Bool)
    (pre : List Row) (row : Row) (post : List Row) (st : MatchState)
    (hpre : ∀ r ∈ pre, rowMatches columnIndex filter r = false)
    (hrow : rowMatches columnIndex filter row = true) :
    scanRows columnIndex filter true (pre ++ row :: post) st
      = { st with rowIndex := st.rowIndex + pre.length + 1,
                  calls := st.calls ++ [([st.rowIndex + pre.length + 1], [row])] } := by
  induction pre generalizing st with
  | nil =>
    rw [List.nil_append, scanRows_cons, hrow]
    simp
  | cons r rest ih =>
    have hr := hpre r (List.mem_cons_self _ _)
    have hrest : ∀ x ∈ rest, rowMatches columnIndex filter x = false :=
      fun x hx => hpre x (List.mem_cons_of_mem _ hx)
    rw [List.cons_append, scanRows_cons, hr]
    simp only [Bool.false_eq_true, if_false]
    rw [ih _ hrest]
    have e : st.rowIndex + 1 + (rest.length : Int) + 1
        = st.rowIndex + ((rest.length : Int) + 1) + 1 := by omega
    simp [e]

theorem scanRows_all (columnIndex : Nat) (filter : Cell → Bool) (rows : List Row)
    (st : MatchState) :
    scanRows columnIndex filter false rows st
      = { rowIndex := st.rowIndex + rows.length,
          matchingIndices := st.matchingIndices
            ++ matchingPositions columnIndex filter (st.rowIndex + 1) rows,
          matchingRows := st.matchingRows ++ rows.filter (rowMatches columnIndex filter),
          calls := st.calls } := by
  induction rows generalizing st with
  | nil => simp [scanRows, matchingPositions]
  | cons r rest ih =>
    rw [scanRows_cons]
    by_cases hm : rowMatches columnIndex filter r = true
    · simp only [hm, if_true, Bool.false_eq_true, if_false]
      rw [ih]
      simp [matchingPositions, hm, List.filter_cons, Int.add_assoc, Int.add_comm 1]
    · have hm' : rowMatches columnIndex filter r = false := by simpa using hm
      simp only [hm', Bool.false_eq_true, if_false]
      rw [ih]
      simp [matchingPositions, hm', List.filter_cons, Int.add_assoc, Int.add_comm 1]

theorem matchingPositions_length (columnIndex : Nat) (filter : Cell → Bool) (pos : Int)
    (rows : List Row) :
    (matchingPositions columnIndex filter pos rows).length
      = (rows.filter (rowMatches columnIndex filter)).length := by
  induction rows generalizing pos with
  | nil => rfl
  | cons r rest ih =>
    by_cases hm : rowMatches columnIndex filter r = true
    · simp [matchingPositions, hm, List.filter_cons, ih]
    · have hm' : rowMatches columnIndex filter r = false := by simpa using hm
      simp [matchingPositions, hm', List.filter_cons, ih]

theorem matchingPositions_lower (columnIndex : Nat) (filter : Cell → Bool) (pos : Int)
    (rows : List Row) : ∀ x ∈ matchingPositions columnIndex filter pos rows, pos ≤ x := by
  induction rows generalizing pos with
  | nil => intro x hx; simp [matchingPositions] at hx
  | cons r rest ih =>
    intro x hx
    by_cases hm : rowMatches columnIndex filter r = true
    · simp only [matchingPositions, hm, if_true, List.mem_cons] at hx
      rcases hx with h | h
      · omega
      · have := ih (pos + 1) x h
        omega
    · have hm' : rowMatches columnIndex filter r = false := by simpa using hm
      simp only [matchingPositions, hm', Bool.false_eq_true, if_false] at hx
      have := ih (pos + 1) x hx
      omega

theorem matchingPositions_increasing (columnIndex : Nat) (filter : Cell → Bool) (pos : Int)
    (rows : List Row) :
    (matchingPositions columnIndex filter pos rows).Pairwise (fun a b => a < b) := by
  induction rows generalizing pos with
  | nil => simp [matchingPositions]
  | cons r rest ih =>
    by_cases hm : rowMatches columnIndex filter r = true
    · simp only [matchingPositions, hm, if_true, List.pairwise_cons]
      refine ⟨?_, ih (pos + 1)⟩
      intro x hx
      have := matchingPositions_lower columnIndex filter (pos + 1) rest x hx
      omega
    · have hm' : rowMatches columnIndex filter r = false := by simpa using hm
      simp only [matchingPositions, hm', Bool.false_eq_true, if_false]
      exact ih (pos + 1)

theorem matchingPositions_zip (columnIndex : Nat) (filter : Cell → Bool) (pos : Int)
    (n : Nat) (rows : List Row) :
    (matchingPositions columnIndex filter pos rows).zip
        (rows.filter (rowMatches columnIndex filter))
      = ((rows.enumFrom n).filter (fun ir => rowMatches columnIndex filter ir.2)).map
          (fun ir => (pos + ((ir.1 : Int) - (n : Int)), ir.2)) := by
  induction rows generalizing pos n with
  | nil => rfl
  | cons r rest ih =>
    have hfun : (fun ir : Nat × Row => (pos + 1 + ((ir.1 : Int) - ((n + 1 : Nat) : Int)), ir.2))
        = (fun ir : Nat × Row => (pos + ((ir.1 : Int) - (n : Int)), ir.2)) := by
      funext ir
      congr 1
      push_cast
      omega
    by_cases hm : rowMatches columnIndex filter r = true
    · simp only [matchingPositions, hm, if_true, List.filter_cons, List.enumFrom_cons,
        List.zip_cons_cons, List.map_cons, ih (pos + 1) (n + 1), hfun]
      simp
    · have hm' : rowMatches columnIndex filter r = false := by simpa using hm
      simp only [matchingPositions, hm', Bool.false_eq_true, if_false, List.filter_cons,
        List.enumFrom_cons, ih (pos + 1) (n + 1), hfun]

/-! ## `getMatchingRows`, `filterItems` and `deleteItems` -/

theorem getMatchingRows_known_column (self : SheetsDatabaseService) (columnName : String)
    (filter : Cell → Bool) (firstOnly : Bool) (rows : List Row)
    (hcol : columnName ∈ self.columns) :
    getMatchingRows self columnName filter firstOnly (.values rows) =
      if !firstOnly then
        { fetchIssued := true,
          calls := (scanRows (self.columns.indexOf columnName) filter firstOnly rows
              { rowIndex := self.startingRow - 1, matchingIndices := [], matchingRows := [],
                calls := [] }).calls
            ++ [((scanRows (self.columns.indexOf columnName) filter firstOnly rows
                  { rowIndex := self.startingRow - 1, matchingIndices := [],
                    matchingRows := [], calls := [] }).matchingIndices,
                 (scanRows (self.columns.indexOf columnName) filter firstOnly rows
                  { rowIndex := self.startingRow - 1, matchingIndices := [],
                    matchingRows := [], calls := [] }).matchingRows)] }
      else
        { fetchIssued := true,
          calls := (scanRows (self.columns.indexOf columnName) filter firstOnly rows
              { rowIndex := self.startingRow - 1, matchingIndices := [], matchingRows := [],
                calls := [] }).calls } := by
  have hc : self.columns.contains columnName = true := by
    simpa using hcol
  simp only [getMatchingRows, hc, Bool.not_true, Bool.false_eq_true, if_false]

/-- C8 as stated fails: with an empty first row, first-only mode on the Id
column with an always-true predicate does not deliver the first row. -/
theorem firstOnly_skips_empty_first_row :
    ¬ (∀ (first : Row) (rest : List Row),
        (getMatchingRows databaseService "Id" (fun _ => true) true
          (.values (first :: rest))).calls
          = [([databaseService.startingRow], [first])]) := by
  intro h
  have := h [] [[some "a"]]
  revert this
  decide

/-- C8 (amended): for a known column and any predicate, when some fetched row
has a cell at the column that the predicate accepts, first-only mode invokes
the callback exactly once, with the first such row in source order and its
remote position as single-element lists; on the Id column with an
always-true predicate this is the first row of the data set whenever that row
has at least one cell. -/
theorem firstOnly_delivers_first_match (self : SheetsDatabaseService) (columnName : String)
    (filter : Cell → Bool) (pre : List Row) (row : Row) (post : List Row)
    (hcol : columnName ∈ self.columns)
    (hpre : ∀ r ∈ pre, rowMatches (self.columns.indexOf columnName) filter r = false)
    (hrow : rowMatches (self.columns.indexOf columnName) filter row = true) :
    (getMatchingRows self columnName filter true (.values (pre ++ row :: post))).calls
        = [([self.startingRow + pre.length], [row])]
      ∧ ∀ (c : Cell) (cs : Row) (rest : List Row),
          (getMatchingRows databaseService "Id" (fun _ => true) true
            (.values ((c :: cs) :: rest))).calls
            = [([DEFAULT_STARTING_ROW], [c :: cs])] := by
  constructor
  · rw [getMatchingRows_known_column self columnName filter true _ hcol]
    simp only [Bool.not_true, Bool.false_eq_true, if_false]
    rw [scanRows_firstOnly_match _ _ pre row post _ hpre hrow]
    simp
    omega
  · intro c cs rest
    have hcol' : "Id" ∈ databaseService.columns := by decide
    have hidx : databaseService.columns.indexOf "Id" = 0 := by decide
    rw [getMatchingRows_known_column databaseService "Id" _ true _ hcol']
    simp only [Bool.not_true, Bool.false_eq_true, if_false, hidx]
    have hm : rowMatches 0 (fun _ => true) (c :: cs) = true := by
      simp [rowMatches]
    have := scanRows_firstOnly_match 0 (fun _ => true) [] (c :: cs) rest
      { rowIndex := databaseService.startingRow - 1, matchingIndices := [],
        matchingRows := [], calls := [] } (by simp) hm
    rw [List.nil_append] at this
    rw [this]
    simp [databaseService]

/-- The amended C8 on the Link column of a four-row sheet whose third row is
the first match. -/
theorem firstOnly_delivers_first_match_witness :
    (getMatchingRows databaseService "Link" (fun c => c == some "x") true
        (.values ([[some "1"], []] ++ [some "2", some "x"] :: [[some "3", some "x"]]))).calls
        = [([databaseService.startingRow + ([[some "1"], []] : List Row).length],
            [[some "2", some "x"]])]
      ∧ ∀ (c : Cell) (cs : Row) (rest : List Row),
          (getMatchingRows databaseService "Id" (fun _ => true) true
            (.values ((c :: cs) :: rest))).calls
            = [([DEFAULT_STARTING_ROW], [c :: cs])] :=
  firstOnly_delivers_first_match databaseService "Link" (fun c => c == some "x")
    [[some "1"], []] [some "2", some "x"] [[some "3", some "x"]]
    (by decide) (by decide) (by decide)

/-- C9: for a known column, `getMatchingRows` with `firstOnly` false invokes
the callback exactly once, with two lists of equal length: the rows that have
a cell at the column accepted by the predicate, all of them in source order,
and their remote positions, the row at index i having position
`startingRow + i`; the positions are strictly increasing. -/
theorem getMatchingRows_collects_all_matches (self : SheetsDatabaseService)
    (columnName : String) (filter : Cell → Bool) (rows : List Row)
    (hcol : columnName ∈ self.columns) :
    ∃ indices matched,
      (getMatchingRows self columnName filter false (.values rows)).calls
          = [(indices, matched)]
        ∧ indices.length = matched.length
        ∧ matched = rows.filter (rowMatches (self.columns.indexOf columnName) filter)
        ∧ indices.zip matched
            = (rows.enum.filter
                (fun ir => rowMatches (self.columns.indexOf columnName) filter ir.2)).map
                (fun ir => (self.startingRow + (ir.1 : Int), ir.2))
        ∧ indices.Pairwise (fun a b => a < b) := by
  refine ⟨matchingPositions (self.columns.indexOf columnName) filter self.startingRow rows,
    rows.filter (rowMatches (self.columns.indexOf columnName) filter), ?_,
    matchingPositions_length _ _ _ _, rfl, ?_, matchingPositions_increasing _ _ _ _⟩
  · rw [getMatchingRows_known_column self columnName filter false _ hcol]
    simp [scanRows_all]
  · rw [List.enum, matchingPositions_zip _ _ _ 0]
    simp

/-- C9 on the Link column of a three-row sheet. -/
theorem getMatchingRows_collects_all_matches_witness :
    "Link" ∈ databaseService.columns
      ∧ ∃ indices matched,
          (getMatchingRows databaseService "Link" (fun c => c == some "x") false
            (.values [[some "1", some "x"], [], [some "3", some "x"]])).calls
              = [(indices, matched)]
            ∧ indices.length = matched.length
            ∧ matched = List.filter
                (rowMatches (databaseService.columns.indexOf "Link") (fun c => c == some "x"))
                [[some "1", some "x"], [], [some "3", some "x"]]
            ∧ indices.zip matched
                = ((List.enum [[some "1", some "x"], [], [some "3", some "x"]]).filter
                    (fun ir => rowMatches (databaseService.columns.indexOf "Link")
                      (fun c => c == some "x") ir.2)).map
                    (fun ir => (databaseService.startingRow + (ir.1 : Int), ir.2))
            ∧ indices.Pairwise (fun a b => a < b) :=
  ⟨by decide,
   getMatchingRows_collects_all_matches databaseService "Link" (fun c => c == some "x")
    [[some "1", some "x"], [], [some "3", some "x"]] (by decide)⟩

/-- The example behind C9, evaluated: rows 2 and 4 of the sheet match. -/
theorem getMatchingRows_all_example :
    (getMatchingRows databaseService "Link" (fun c => c == some "x") false
      (.values [[some "1", some "x"], [], [some "3", some "x"]])).calls
      = [([2, 4], [[some "1", some "x"], [some "3", some "x"]])] := by
  decide

theorem runDeleteCalls_cons (call : List Int × List Row) (rest : List (List Int × List Row))
    (eff : DeleteEffects) :
    runDeleteCalls (call :: rest) eff = .error (.referenceError "result") := by
  obtain ⟨i, r⟩ := call
  rfl

/-- C10 (code): `deleteItems` never hands a position to `deleteRows` and never
reaches the caller's callback; whenever the filter invokes its callback, the
run ends with `ReferenceError: result is not defined`.  In all-matches mode on
a fetched row set this happens on every call. -/
theorem deleteItems_raises_and_deletes_nothing (key : String) (filter : Cell → Bool)
    (firstOnly : Bool) (response : FetchResponse) (rows : List Row) :
    (match deleteItems key filter firstOnly response with
      | .ok eff => eff.deleteRowsCalls = [] ∧ eff.callbackCalls = 0
      | .error e => e = .referenceError "result")
      ∧ deleteItems "Id" filter false (.values rows) = .error (.referenceError "result")
      ∧ deleteItems "Id" (fun _ => true) false (.values [[some "a"]])
          = .error (.referenceError "result") := by
  refine ⟨?_, ?_, rfl⟩
  · unfold deleteItems
    cases (getMatchingRows databaseService key filter firstOnly response).calls with
    | nil => simp [runDeleteCalls]
    | cons c cs => rw [runDeleteCalls_cons]
  · unfold deleteItems
    have hcol : "Id" ∈ databaseService.columns := by decide
    rw [getMatchingRows_known_column databaseService "Id" filter false rows hcol]
    simp only [Bool.not_false, if_true, scanRows_all, List.nil_append]
    rw [runDeleteCalls_cons]

/-! ## `deleteRows`: the order of the deletion requests -/

/-- C11 (code): on `[3, 7, 9]` the requests are issued for 9, 7, 3, but the
default sort compares the positions as strings: on `[3, 10]` the requests are
issued for row 3 first and row 10 second (ascending), and on `[9, 10, 11]`
for 9, 11, 10. -/
theorem deleteRows_orders_positions_as_strings :
    deleteRows [3, 7, 9]
        = [[{ startIndex := 8, endIndex := 9 }, { startIndex := 6, endIndex := 7 },
            { startIndex := 2, endIndex := 3 }]]
      ∧ deleteRows [3, 10]
        = [[{ startIndex := 2, endIndex := 3 }, { startIndex := 9, endIndex := 10 }]]
      ∧ deleteRows [9, 10, 11]
        = [[{ startIndex := 8, endIndex := 9 }, { startIndex := 10, endIndex := 11 },
            { startIndex := 9, endIndex := 10 }]] := by
  decide

/-! ## `updateRows`: the batch written back -/

theorem getExcelColumnName_six : getExcelColumnName 6 = some "F" := by
  simp [getExcelColumnName, getExcelColumnNameLoop, NUM_LETTERS, CHAR_A]
  decide

theorem filterMap_range_zip {α β γ : Type} (da : α) (db : β) (f : α → β → Option γ) :
    ∀ (a : List α) (b : List β), a.length = b.length →
      (List.range a.length).filterMap (fun i => f (a.getD i da) (b.getD i db))
        = (a.zip b).filterMap (fun xy => f xy.1 xy.2) := by
  intro a
  induction a with
  | nil => intro b _; simp
  | cons x xs ih =>
    intro b hb
    cases b with
    | nil => simp at hb
    | cons y ys =>
      have hlen : xs.length = ys.length := by simpa using hb
      have := ih ys hlen
      simp only [List.length_cons, List.range_succ_eq_map, List.filterMap_cons,
        List.filterMap_map, List.zip_cons_cons]
      have hfun : ((fun i => f ((x :: xs).getD i da) ((y :: ys).getD i db)) ∘ Nat.succ)
          = (fun i => f (xs.getD i da) (ys.getD i db)) := by
        funext i
        simp
      rw [hfun, this]
      simp

theorem updateRows_eq_zip (self : SheetsDatabaseService) (rowIndices : List Int)
    (rowValues : List Row) (h : rowIndices.length = rowValues.length) :
    updateRows self rowIndices rowValues =
      [(rowIndices.zip rowValues).filterMap (fun pr =>
        if pr.2.length ≠ self.columns.length then none
        else some { range := STARTING_COLUMN ++ numberToString pr.1 ++ ":"
                      ++ (getExcelColumnName self.columns.length).getD "null"
                      ++ numberToString pr.1,
                    values := [pr.2] })] := by
  unfold updateRows
  simp only [h, ne_eq, not_true_eq_false, if_false]
  have := filterMap_range_zip (0 : Int) ([] : Row)
    (fun rowIndex rowValue =>
      if rowValue.length ≠ self.columns.length then none
      else some ({ range := STARTING_COLUMN ++ numberToString rowIndex ++ ":"
                      ++ (getExcelColumnName self.columns.length).getD "null"
                      ++ numberToString rowIndex,
                   values := [rowValue] } : RangeUpdate))
    rowIndices rowValues h
  rw [← this, ← h]
  rfl

/-- C12: for position and row lists of equal length, `updateRows` issues one
batch that holds, in order, exactly the pairs whose row has 6 cells, each
addressed to the range `A<pos>:F<pos>` of its own position; rows of any other
width are left out and the others are still written. -/
theorem updateRows_writes_full_width_rows (rowIndices : List Int) (rowValues : List Row)
    (hlen : rowIndices.length = rowValues.length) :
    updateRows databaseService rowIndices rowValues =
      [((rowIndices.zip rowValues).filter (fun pr => decide (pr.2.length = 6))).map
        (fun pr => { range := "A" ++ numberToString pr.1 ++ ":" ++ "F"
                                ++ numberToString pr.1,
                     values := [pr.2] })] := by
  rw [updateRows_eq_zip databaseService rowIndices rowValues hlen]
  have hcols : databaseService.columns.length = 6 := by decide
  have hF : (getExcelColumnName (databaseService.columns.length : Nat)).getD "null" = "F" := by
    rw [hcols]
    have := getExcelColumnName_six
    simp only [Nat.cast_ofNat] at *
    rw [this]
    rfl
  rw [hF, hcols]
  congr 1
  induction rowIndices.zip rowValues with
  | nil => rfl
  | cons pr rest ih =>
    by_cases hw : pr.2.length = 6
    · simp_all [List.filterMap_cons, List.filter_cons, STARTING_COLUMN]
    · simp_all [List.filterMap_cons, List.filter_cons, STARTING_COLUMN]

/-- C12 on three matched rows of which the second has 4 cells. -/
theorem updateRows_writes_full_width_rows_witness :
    updateRows databaseService [2, 5, 7]
        [[some "a", none, none, none, none, none], [some "b", none, none, none],
         [some "c", none, none, none, none, none]]
      = [[{ range := "A" ++ numberToString 2 ++ ":" ++ "F" ++ numberToString 2,
            values := [[some "a", none, none, none, none, none]] },
          { range := "A" ++ numberToString 7 ++ ":" ++ "F" ++ numberToString 7,
            values := [[some "c", none, none, none, none, none]] }]] :=
  updateRows_writes_full_width_rows [2, 5, 7]
    [[some "a", none, none, none, none, none], [some "b", none, none, none],
     [some "c", none, none, none, none, none]] (by decide)

/-- The ranges of the example written out. -/
theorem updateRows_example_ranges :
    "A" ++ numberToString 2 ++ ":" ++ "F" ++ numberToString 2 = "A2:F2"
      ∧ "A" ++ numberToString 7 ++ ":" ++ "F" ++ numberToString 7 = "A7:F7" := by
  decide

/-! ## Unknown column names -/

/-- C13: for a column name that is not in the schema, `getMatchingRows` issues
no fetch and never invokes its callback, so `filterItems` delivers nothing,
`updateItems` writes nothing and `deleteItems` deletes nothing. -/
theorem unknown_column_is_a_no_op (columnName : String) (filter : Cell → Bool)
    (mutator : Row → Row) (firstOnly : Bool) (response : FetchResponse)
    (hcol : columnName ∉ COLUMNS) :
    getMatchingRows databaseService columnName filter firstOnly response
        = { fetchIssued := false, calls := [] }
      ∧ filterItems columnName filter firstOnly response = []
      ∧ updateItems columnName filter mutator firstOnly response = []
      ∧ deleteItems columnName filter firstOnly response
          = .ok { deleteRowsCalls := [], callbackCalls := 0 } := by
  have hc : databaseService.columns.contains columnName = false := by
    simpa [databaseService] using hcol
  have hg : getMatchingRows databaseService columnName filter firstOnly response
      = { fetchIssued := false, calls := [] } := by
    simp only [getMatchingRows, hc, Bool.not_false, if_true]
  refine ⟨hg, ?_, ?_, ?_⟩
  · simp only [filterItems, hg]
  · simp only [updateItems, hg, List.map_nil, List.flatten_nil]
  · simp only [deleteItems, hg, runDeleteCalls]

/-- C13 at the column name `Title`. -/
theorem unknown_column_is_a_no_op_witness :
    "Title" ∉ COLUMNS
      ∧ getMatchingRows databaseService "Title" (fun _ => true) false
          (.values [[some "a"]]) = { fetchIssued := false, calls := [] }
      ∧ filterItems "Title" (fun _ => true) false (.values [[some "a"]]) = []
      ∧ updateItems "Title" (fun _ => true) id false (.values [[some "a"]]) = []
      ∧ deleteItems "Title" (fun _ => true) false (.values [[some "a"]])
          = .ok { deleteRowsCalls := [], callbackCalls := 0 } :=
  ⟨by decide,
   unknown_column_is_a_no_op "Title" (fun _ => true) id false (.values [[some "a"]])
    (by decide)⟩

/-! ## Tag decoding -/

theorem splitChars_ne_nil (sep : Char) (cs cur : List Char) : splitChars sep cs cur ≠ [] := by
  induction cs generalizing cur with
  | nil => simp [splitChars]
  | cons c cs ih =>
    unfold splitChars
    by_cases hc : c = sep
    · simp [hc]
    · simp only [hc, if_false]
      exact ih _

theorem splitChars_chars (sep : Char) (cs cur : List Char) :
    ∀ t ∈ splitChars sep cs cur, ∀ ch ∈ t.data, ch ≠ sep ∧ (ch ∈ cur ∨ ch ∈ cs)
      ∨ (ch ∈ cur ∧ ch = sep) := by
  induction cs generalizing cur with
  | nil =>
    intro t ht ch hch
    simp only [splitChars, List.mem_singleton] at ht
    subst ht
    by_cases hs : ch = sep
    · exact Or.inr ⟨hch, hs⟩
    · exact Or.inl ⟨hs, Or.inl hch⟩
  | cons c cs ih =>
    intro t ht ch hch
    unfold splitChars at ht
    by_cases hc : c = sep
    · simp only [hc, if_true, List.mem_cons] at ht
      rcases ht with ht | ht
      · subst ht
        by_cases hs : ch = sep
        · exact Or.inr ⟨hch, hs⟩
        · exact Or.inl ⟨hs, Or.inl hch⟩
      · rcases ih [] t ht ch hch with ⟨h1, h2⟩ | ⟨h1, _⟩
        · rcases h2 with h2 | h2
          · simp at h2
          · exact Or.inl ⟨h1, Or.inr (List.mem_cons_of_mem _ h2)⟩
        · simp at h1
    · simp only [hc, if_false] at ht
      rcases ih (cur ++ [c]) t ht ch hch with ⟨h1, h2⟩ | ⟨h1, h2⟩
      · refine Or.inl ⟨h1, ?_⟩
        rcases h2 with h2 | h2
        · rcases List.mem_append.mp h2 with h3 | h3
          · exact Or.inl h3
          · simp at h3; subst h3; exact Or.inr (List.mem_cons_self _ _)
        · exact Or.inr (List.mem_cons_of_mem _ h2)
      · rcases List.mem_append.mp h1 with h3 | h3
        · exact Or.inr ⟨h3, h2⟩
        · simp at h3
          subst h3
          exact absurd h2 hc

theorem join_cons_of_ne_nil (sep a : String) (l : List String) (h : l ≠ []) :
    join sep (a :: l) = a ++ sep ++ join sep l := by
  cases l with
  | nil => exact absurd rfl h
  | cons b rest => rfl

theorem join_splitChars (sep : Char) (cs cur : List Char) :
    (join (String.singleton sep) (splitChars sep cs cur)).data = cur ++ cs := by
  induction cs generalizing cur with
  | nil => simp [splitChars, join]
  | cons c cs ih =>
    unfold splitChars
    by_cases hc : c = sep
    · simp only [hc, if_true]
      rw [join_cons_of_ne_nil _ _ _ (splitChars_ne_nil sep cs [])]
      simp only [String.data_append, ih []]
      simp [String.singleton]
    · simp only [hc, if_false]
      rw [ih]
      simp

theorem toLower_not_upper (c : Char) : (Char.toLower c).isUpper = false := by
  unfold Char.toLower
  simp only
  by_cases h : c.toNat ≥ 65 ∧ c.toNat ≤ 90
  · simp only [h, and_self, if_true]
    obtain ⟨h1, h2⟩ := h
    generalize c.toNat = n at h1 h2
    interval_cases n <;> decide
  · simp only [h, if_false]
    simp only [Char.isUpper, Bool.and_eq_false_imp, decide_eq_true_eq, decide_eq_false_iff_not]
    intro h1 h2
    apply h
    have e1 : (65 : UInt32) ≤ c.val := h1
    have e2 : c.val ≤ (90 : UInt32) := h2
    rw [UInt32.le_def] at e1 e2
    exact ⟨e1, e2⟩

theorem toLowerCaseAscii_no_upper (s : String) :
    ∀ ch ∈ (toLowerCaseAscii s).data, ch.isUpper = false := by
  intro ch hch
  simp only [toLowerCaseAscii, List.mem_map] at hch
  obtain ⟨c0, _, hc0⟩ := hch
  rw [← hc0]
  exact toLower_not_upper c0

/-- C16: `getTags` returns null when the Tags cell is missing, null or empty,
and otherwise the list obtained by lowercasing the cell with the method of
the runtime and splitting the result on `,`; that list is never empty, every
character of every tag is a character of the lowercased cell and not a comma,
so no tag contains an uppercase letter when the lowercased cell contains
none, and joining the list with `,` gives back the lowercased cell. -/
theorem getTags_lowercases_and_splits (toLowerCase : String → String)
    (isUppercase : Char → Bool) (data : List Row) (index : Nat) (str : String) :
    getTags toLowerCase data index
        = (match data[index]? with
           | none => none
           | some rowArr =>
             match rowArr[4]? with
             | none => none
             | some none => none
             | some (some s) => if s = "" then none else some (splitComma (toLowerCase s)))
      ∧ splitComma (toLowerCase str) ≠ []
      ∧ (∀ t ∈ splitComma (toLowerCase str), ∀ ch ∈ t.data,
          ch ≠ ',' ∧ ch ∈ (toLowerCase str).data)
      ∧ ((∀ ch ∈ (toLowerCase str).data, isUppercase ch = false) →
          ∀ t ∈ splitComma (toLowerCase str), ∀ ch ∈ t.data, isUppercase ch = false)
      ∧ join "," (splitComma (toLowerCase str)) = toLowerCase str := by
  have hchars : ∀ t ∈ splitComma (toLowerCase str), ∀ ch ∈ t.data,
      ch ≠ ',' ∧ ch ∈ (toLowerCase str).data := by
    intro t ht ch hch
    rcases splitChars_chars ',' (toLowerCase str).data [] t ht ch hch with ⟨h1, h2⟩ | ⟨h1, _⟩
    · rcases h2 with h2 | h2
      · simp at h2
      · exact ⟨h1, h2⟩
    · simp at h1
  refine ⟨?_, splitChars_ne_nil _ _ _, hchars, ?_, ?_⟩
  · have h4 : TAGS_INDEX = 4 := by decide
    have hspec := (getColumnEntry_spec data index 4)
    unfold getTags
    rw [h4, hspec]
    cases data[index]? with
    | none => rfl
    | some rowArr =>
      simp only
      cases rowArr[4]? with
      | none => rfl
      | some cell =>
        cases cell with
        | none => rfl
        | some s =>
          by_cases hs : s = ""
          · simp [hs]
          · simp [hs]
  · intro hlower t ht ch hch
    exact hlower ch (hchars t ht ch hch).2
  · apply String.ext
    have := join_splitChars ',' (toLowerCase str).data []
    simpa [splitComma] using this

/-- C16 for the ASCII cell `Red,BLUE`, with the letters `A`-`Z` as the
uppercase letters: the tags are `red` and `blue`, and none of them contains a
letter `A`-`Z`. -/
theorem getTags_lowercases_and_splits_witness :
    getTags toLowerCaseAscii [[some "X", none, none, none, some "Red,BLUE"]] 0
        = some ["red", "blue"]
      ∧ (∀ ch ∈ (toLowerCaseAscii "Red,BLUE").data, ch.isUpper = false)
      ∧ (∀ t ∈ splitComma (toLowerCaseAscii "Red,BLUE"), ∀ ch ∈ t.data, ch.isUpper = false)
      ∧ join "," (splitComma (toLowerCaseAscii "Red,BLUE")) = toLowerCaseAscii "Red,BLUE" :=
  have h := getTags_lowercases_and_splits toLowerCaseAscii Char.isUpper
    [[some "X", none, none, none, some "Red,BLUE"]] 0 "Red,BLUE"
  ⟨h.1.trans (by decide), toLowerCaseAscii_no_upper "Red,BLUE",
   h.2.2.2.1 (toLowerCaseAscii_no_upper "Red,BLUE"), h.2.2.2.2⟩

/-! ## `addItem` -/

/-- C17 (code): a null type appends nothing, but a type outside the
enumeration is only logged: for every non-null type exactly one row is handed
to the store, and for the type `video` the row is appended after the error
line has been logged. -/
theorem addItem_appends_unsupported_type (toLowerCase : String → String) (id : String)
    (link : Cell) (type : String) (name : Cell) (tags : Option (List String))
    (description : Cell) :
    (addItem toLowerCase id link none name tags description).appended = []
      ∧ (addItem toLowerCase id link (some type) name tags description).appended.length = 1
      ∧ ALLOWED_TYPES.contains (toLowerCaseAscii "video") = false
      ∧ addItem toLowerCaseAscii "id-1" (some "x.com") (some "video") (some "n") none
            (some "d")
          = { logged := ["Error: Unsupported type \"video\""],
              appended := [[some "id-1", some "x.com", some "video", some "n", none,
                            some "d"]] } := by
  refine ⟨rfl, ?_, by decide, by decide⟩
  simp [addItem, addEntry, databaseService, COLUMNS]

/-- C18: for an allowed type, `addItem` hands the store exactly one row of 6
cells in schema order: the generated id, the link, the lowercased type, the
name (the link when the name is null or empty), the tags joined with `,`
(null when tags is null) and the description; `addEntry` accepts it. -/
theorem addItem_row_for_allowed_type (toLowerCase : String → String) (id : String)
    (link : Cell) (type : String) (name : Cell) (tags : Option (List String))
    (description : Cell)
    (hallowed : toLowerCase type ∈ ALLOWED_TYPES) :
    (addItem toLowerCase id link (some type) name tags description).appended
        = [[some id, link, some (toLowerCase type),
            (match name with
             | none => link
             | some n => if n = "" then link else some n),
            tags.map (join ","), description]]
      ∧ (addItem toLowerCase id link (some type) name tags description).logged = []
      ∧ ([some id, link, some (toLowerCase type),
            (match name with
             | none => link
             | some n => if n = "" then link else some n),
            tags.map (join ","), description] : Row).length = COLUMNS.length
      ∧ addEntry databaseService
          [some id, link, some (toLowerCase type),
            (match name with
             | none => link
             | some n => if n = "" then link else some n),
            tags.map (join ","), description]
          = [[some id, link, some (toLowerCase type),
            (match name with
             | none => link
             | some n => if n = "" then link else some n),
            tags.map (join ","), description]] := by
  have hc : ALLOWED_TYPES.contains (toLowerCase type) = true := by simpa using hallowed
  have hname : (match name with
                | some n => if n.length > 0 then some n else link
                | none => link)
             = (match name with
                | none => link
                | some n => if n = "" then link else some n) := by
    cases name with
    | none => rfl
    | some n =>
      by_cases hn : n = ""
      · subst hn; simp
      · have hpos : 0 < n.length := by
          rcases Nat.eq_zero_or_pos n.length with h | h
          · exact absurd (String.ext (List.length_eq_zero.mp h)) hn
          · exact h
        simp [hpos, hn]
  have htags : (match tags with
                | some ts => some (join "," ts)
                | none => none) = tags.map (join ",") := by
    cases tags <;> rfl
  refine ⟨?_, ?_, rfl, ?_⟩
  · simp only [addItem, hname, htags]
    simp [addEntry, databaseService, COLUMNS]
  · simp only [addItem, hc]
    rfl
  · simp [addEntry, databaseService, COLUMNS]

/-- C18 for a call with type `Image`, no name and two tags. -/
theorem addItem_row_for_allowed_type_witness :
    toLowerCaseAscii "Image" ∈ ALLOWED_TYPES
      ∧ (addItem toLowerCaseAscii "id-1" (some "x.com/p.png") (some "Image") none
            (some ["a", "b"]) (some "d")).appended
          = [[some "id-1", some "x.com/p.png", some "image", some "x.com/p.png",
              some "a,b", some "d"]] :=
  ⟨by decide,
   (addItem_row_for_allowed_type toLowerCaseAscii "id-1" (some "x.com/p.png") "Image" none
      (some ["a", "b"]) (some "d") (by decide)).1.trans (by decide)⟩

/-! ## `getMatchingRows` when no row matches -/

theorem scanRows_firstOnly_calls_length (columnIndex : Nat) (filter : Cell → Bool)
    (rows : List Row) (st : MatchState) :
    (scanRows columnIndex filter true rows st).calls.length ≤ st.calls.length + 1 := by
  induction rows generalizing st with
  | nil => simp [scanRows]
  | cons r rest ih =>
    rw [scanRows_cons]
    by_cases hm : rowMatches columnIndex filter r = true
    · simp [hm]
    · have hm' : rowMatches columnIndex filter r = false := by simpa using hm
      simp only [hm', Bool.false_eq_true, if_false]
      exact ih _

theorem getMatchingRows_calls_length (self : SheetsDatabaseService) (columnName : String)
    (filter : Cell → Bool) (firstOnly : Bool) (response : FetchResponse) :
    (getMatchingRows self columnName filter firstOnly response).calls.length ≤ 1 := by
  unfold getMatchingRows
  split
  · simp
  · cases response with
    | err e => simp
    | values rows =>
      cases firstOnly with
      | true =>
        simp only [Bool.not_true, Bool.false_eq_true, if_false]
        have := scanRows_firstOnly_calls_length (self.columns.indexOf columnName) filter rows
          { rowIndex := self.startingRow - 1, matchingIndices := [], matchingRows := [],
            calls := [] }
        simpa using this
      | false =>
        simp [scanRows_all]

/-- C21: for a known column, when no fetched row has a cell at the column that
the predicate accepts, `getMatchingRows` never invokes the callback in
first-only mode and invokes it exactly once, with two empty lists, in
all-matches mode; a row without a cell at the column never matches, whatever
the predicate; and in both modes, on any response, the callback is invoked at
most once. -/
theorem getMatchingRows_without_match (self : SheetsDatabaseService) (columnName : String)
    (filter : Cell → Bool) (rows : List Row)
    (hcol : columnName ∈ self.columns)
    (hno : ∀ r ∈ rows, rowMatches (self.columns.indexOf columnName) filter r = false) :
    (getMatchingRows self columnName filter true (.values rows)).calls = []
      ∧ (getMatchingRows self columnName filter false (.values rows)).calls = [([], [])]
      ∧ (∀ (row : Row) (anyFilter : Cell → Bool),
          self.columns.indexOf columnName < row.length
            ∨ rowMatches (self.columns.indexOf columnName) anyFilter row = false)
      ∧ ∀ (firstOnly : Bool) (response : FetchResponse),
          (getMatchingRows self columnName filter firstOnly response).calls.length ≤ 1 := by
  refine ⟨?_, ?_, ?_, fun firstOnly response =>
    getMatchingRows_calls_length self columnName filter firstOnly response⟩
  · rw [getMatchingRows_known_column self columnName filter true rows hcol]
    simp only [Bool.not_true, Bool.false_eq_true, if_false]
    rw [scanRows_firstOnly_no_match _ _ rows _ hno]
  · rw [getMatchingRows_known_column self columnName filter false rows hcol]
    simp only [Bool.not_false, if_true, scanRows_all, List.nil_append]
    have hfilter : rows.filter (rowMatches (self.columns.indexOf columnName) filter) = [] := by
      rw [List.filter_eq_nil_iff]
      intro r hr
      simp [hno r hr]
    have hpos : matchingPositions (self.columns.indexOf columnName) filter
        (self.startingRow - 1 + 1) rows = [] := by
      have := matchingPositions_length (self.columns.indexOf columnName) filter
        (self.startingRow - 1 + 1) rows
      rw [hfilter] at this
      exact List.length_eq_zero.mp this
    rw [hfilter, hpos]
  · intro row anyFilter
    by_cases hlt : self.columns.indexOf columnName < row.length
    · exact Or.inl hlt
    · right
      simp [rowMatches, hlt]

/-- C21 on the Link column of a sheet whose rows are too short or hold another
link. -/
theorem getMatchingRows_without_match_witness :
    (getMatchingRows databaseService "Link" (fun c => c == some "x") true
        (.values [[some "1"], [], [some "3", some "y"]])).calls = []
      ∧ (getMatchingRows databaseService "Link" (fun c => c == some "x") false
        (.values [[some "1"], [], [some "3", some "y"]])).calls = [([], [])] :=
  have h := getMatchingRows_without_match databaseService "Link" (fun c => c == some "x")
    [[some "1"], [], [some "3", some "y"]] (by decide) (by decide)
  ⟨h.1, h.2.1⟩

/-! ## Column names -/

theorem letter_of_modulo (modulo : Nat) (h : modulo < 26) :
    (Char.ofNat (modulo + CHAR_A)).toNat = modulo + 65
      ∧ (Char.ofNat (modulo + CHAR_A)).isUpper = true := by
  interval_cases modulo <;> decide

theorem lettersValue_snoc (letters : List Char) (c : Char) :
    lettersValue (letters ++ [c]) = lettersValue letters * 26 + (c.toNat - 64) := by
  simp [lettersValue, List.foldl_append]

theorem getExcelColumnNameLoop_spec (columnNumber : Nat) :
    ∀ columnName : String, ∃ letters : List Char,
      (getExcelColumnNameLoop columnNumber columnName).data = letters ++ columnName.data
        ∧ (∀ c ∈ letters, c.isUpper = true)
        ∧ lettersValue letters = columnNumber
        ∧ (columnNumber = 0 ∨ letters ≠ []) := by
  induction columnNumber using Nat.strongRecOn with
  | ind n ih =>
    intro columnName
    rw [getExcelColumnNameLoop]
    by_cases hn : n > 0
    · simp only [hn, if_true]
      have hmod : (n - 1) % NUM_LETTERS < 26 := Nat.mod_lt _ (by decide)
      have hlt : (n - (n - 1) % NUM_LETTERS) / NUM_LETTERS < n := by
        simp only [NUM_LETTERS]
        omega
      obtain ⟨letters, hdata, hupper, hvalue, _⟩ :=
        ih _ hlt (String.singleton (Char.ofNat ((n - 1) % NUM_LETTERS + CHAR_A)) ++ columnName)
      obtain ⟨hnat, hup⟩ := letter_of_modulo ((n - 1) % NUM_LETTERS) hmod
      refine ⟨letters ++ [Char.ofNat ((n - 1) % NUM_LETTERS + CHAR_A)], ?_, ?_, ?_, ?_⟩
      · rw [hdata]
        simp [String.singleton]
      · intro c hc
        rcases List.mem_append.mp hc with h | h
        · exact hupper c h
        · simp only [List.mem_singleton] at h
          rw [h]
          exact hup
      · rw [lettersValue_snoc, hvalue, hnat]
        simp only [NUM_LETTERS]
        omega
      · right
        simp
    · have h0 : n = 0 := by omega
      simp only [hn, if_false]
      exact ⟨[], by simp, by simp, by simp [lettersValue, h0], Or.inl h0⟩

theorem getExcelColumnName_spec (n : Int) (hn : 1 ≤ n) :
    ∃ s, getExcelColumnName n = some s ∧ s ≠ "" ∧ (∀ c ∈ s.data, c.isUpper = true)
      ∧ (columnValue s : Int) = n := by
  obtain ⟨letters, hdata, hupper, hvalue, hne⟩ := getExcelColumnNameLoop_spec n.toNat ""
  have hpos : ¬ n ≤ 0 := by omega
  refine ⟨getExcelColumnNameLoop n.toNat "", by simp [getExcelColumnName, hpos], ?_, ?_, ?_⟩
  · intro h
    rw [h] at hdata
    rcases hne with h0 | h1
    · omega
    · apply h1
      simpa using hdata.symm
  · intro c hc
    rw [hdata] at hc
    exact hupper c (by simpa using hc)
  · have : (getExcelColumnNameLoop n.toNat "").data = letters := by simpa using hdata
    rw [columnValue, this, hvalue]
    omega

/-- C22: `getExcelColumnName` returns null for every column number `≤ 0`; for
every `n ≥ 1` it returns a non-empty string of letters A-Z whose value as a
bijective base-26 numeral (A = 1, ..., Z = 26) is `n`, so two different
positive column numbers never get the same name; 1, 26 and 27 give `A`, `Z`
and `AA`, and the 6-column schema gives the last column `F` and the data
range `A2:F`. -/
theorem getExcelColumnName_is_bijective_base26 (n m : Int) :
    ((n ≤ 0 ∧ getExcelColumnName n = none)
        ∨ (1 ≤ n ∧ ∃ s, getExcelColumnName n = some s ∧ s ≠ ""
            ∧ (∀ c ∈ s.data, c.isUpper = true) ∧ (columnValue s : Int) = n))
      ∧ (n ≤ 0 ∨ m ≤ 0 ∨ n = m ∨ getExcelColumnName n ≠ getExcelColumnName m)
      ∧ getExcelColumnName 1 = some "A"
      ∧ getExcelColumnName 26 = some "Z"
      ∧ getExcelColumnName 27 = some "AA"
      ∧ getExcelColumnName COLUMNS.length = some "F"
      ∧ dataRange databaseService = "A2:F" := by
  have h6 : getExcelColumnName ((COLUMNS.length : Nat) : Int) = some "F" := by
    have hlen : COLUMNS.length = 6 := by decide
    rw [hlen]
    simp [getExcelColumnName, getExcelColumnNameLoop, NUM_LETTERS, CHAR_A]
    decide
  refine ⟨?_, ?_, ?_, ?_, ?_, h6, ?_⟩
  · by_cases hn : n ≤ 0
    · exact Or.inl ⟨hn, by simp [getExcelColumnName, hn]⟩
    · exact Or.inr ⟨by omega, getExcelColumnName_spec n (by omega)⟩
  · by_cases hn : n ≤ 0
    · exact Or.inl hn
    · by_cases hm : m ≤ 0
      · exact Or.inr (Or.inl hm)
      · right; right
        by_cases hnm : n = m
        · exact Or.inl hnm
        · right
          intro heq
          obtain ⟨s, hs, _, _, hvs⟩ := getExcelColumnName_spec n (by omega)
          obtain ⟨t, ht, _, _, hvt⟩ := getExcelColumnName_spec m (by omega)
          rw [hs, ht] at heq
          have hst : s = t := Option.some.inj heq
          rw [hst] at hvs
          exact hnm (hvs.symm.trans hvt)
  · simp [getExcelColumnName, getExcelColumnNameLoop, NUM_LETTERS, CHAR_A]
    decide
  · simp [getExcelColumnName, getExcelColumnNameLoop, NUM_LETTERS, CHAR_A]
    decide
  · simp [getExcelColumnName, getExcelColumnNameLoop, NUM_LETTERS, CHAR_A]
    decide
  · unfold dataRange
    have hcols : databaseService.columns = COLUMNS := rfl
    rw [hcols, h6]
    decide

end Imladris
